import Mathlib

/-!
Shallow embedding of the `lms` repository's notification engine
(`src/notifications/services.py`, `src/notifications/models.py`, and the
parts of `src/registry/models.py` / `src/accounts/models.py` it reads).

Python strings are modelled as `List Char` (`Str`), dates as `Int`
(ordinal day numbers; `date - date` becomes integer subtraction), the
database stores as explicit lists threaded through the engine, and the
mail transport as an oracle function returning `Except`.
-/

namespace LMS

/-- Python strings, modelled as character lists. -/
abbrev Str := List Char

/-- Convert a Lean string literal to the `Str` model. -/
def str (s : String) : Str := s.data

/-- Characters removed by Python's `str.strip()` (ASCII whitespace). -/
def isSpaceChar (c : Char) : Bool :=
  c == ' ' || c == '\t' || c == '\n' || c == '\r' || c == '\x0b' || c == '\x0c'

/-- Python `str.strip()`: drop leading and trailing whitespace. -/
def pyStrip (s : Str) : Str :=
  ((s.dropWhile isSpaceChar).reverse.dropWhile isSpaceChar).reverse

/-- Fuel-indexed worker for `strReplace`; the fuel bounds the number of
characters still to be scanned and is structurally decreasing. -/
def strReplaceGo : Nat → Str → Str → Str → Str
  | _, [], _, _ => []
  | 0, s, _, _ => s
  | fuel + 1, c :: rest, pat, rep =>
    if pat.isPrefixOf (c :: rest) && !pat.isEmpty then
      rep ++ strReplaceGo fuel ((c :: rest).drop pat.length) pat rep
    else
      c :: strReplaceGo fuel rest pat rep

/-- Python `str.replace(pat, rep)`: replace all non-overlapping occurrences
left to right.  (For the empty pattern — never used by the source — this
model is the identity.) -/
def strReplace (s pat rep : Str) : Str := strReplaceGo s.length s pat rep

end LMS

namespace LMS

/-- Lifecycle statuses of `registry.models.RecordStatus`. -/
inductive RecordStatus where
  | active | expiringSoon | expired | renewed | archived
deriving DecidableEq

/-- Roles of `accounts.models.UserRole`. -/
inductive UserRole where
  | admin | manager | viewer
deriving DecidableEq

/-- Notification kinds of `notifications.models.NotificationKind`. -/
inductive NotificationKind where
  | reminder | escalation
deriving DecidableEq

/-- Log statuses of `notifications.models.NotificationStatus`. -/
inductive NotificationStatus where
  | pending | sent | failed | skipped
deriving DecidableEq

/-- A user row (`accounts.models.User`), restricted to the fields the
engine reads.  `organizationId` is nullable, `email` may be empty. -/
structure User where
  id : Nat
  organizationId : Option Nat
  role : UserRole
  isActive : Bool
  email : Str
deriving DecidableEq

/-- A record row (`registry.models.Record`), restricted to the fields the
engine reads.  `ownerEmail` models `getattr(record.owner, "email", None)`:
`none` when the record has no owner. -/
structure Record where
  id : Nat
  organizationId : Nat
  title : Str
  referenceNo : Str
  expiryDate : Option Int
  status : RecordStatus
  ownerEmail : Option Str
  recordType : Str
  category : Str
deriving DecidableEq

/-- A rule row (`notifications.models.NotificationRule`) as the engine
reads it.  `recordType`/`category` are nullable and may be blank;
`escalationRecipients` holds the emails of the users in the
`escalation_recipients` many-to-many set, in iteration order. -/
structure NotificationRule where
  id : Nat
  organizationId : Nat
  enabled : Bool
  appliesToAll : Bool
  recordType : Option Str
  category : Option Str
  offsetsDays : List Int
  escalateEnabled : Bool
  escalateOffsetsDays : List Int
  escalationRecipients : List Str
  emailSubjectTemplate : Str
  emailBodyTemplate : Str
deriving DecidableEq

/-- Python truthiness of an optional string: `None` and `""` are falsy. -/
def optTruthy : Option Str → Bool
  | none => false
  | some s => !s.isEmpty

/-- One dimension check of `NotificationRule.matches_record`: the rule
dimension blocks the record when it is set (truthy) and differs from the
record's field. -/
def dimBlocks (dim : Option Str) (field : Str) : Bool :=
  match dim with
  | none => false
  | some s => !s.isEmpty && field ≠ s

/-- `NotificationRule.matches_record` (src/notifications/models.py:100-109). -/
def matchesRecord (rule : NotificationRule) (record : Record) : Bool :=
  if record.organizationId ≠ rule.organizationId then false
  else if rule.appliesToAll then true
  else if dimBlocks rule.recordType record.recordType then false
  else if dimBlocks rule.category record.category then false
  else true

/-- The filtering pass of `_safe_emails` (src/notifications/services.py:42-49):
skip falsy entries, strip, keep entries containing `'@'` of length at most 254. -/
def safeEmailsFilter : List (Option Str) → List Str
  | [] => []
  | none :: rest => safeEmailsFilter rest
  | some e :: rest =>
    if e.isEmpty then safeEmailsFilter rest
    else
      let e' := pyStrip e
      if e'.contains '@' && decide (e'.length ≤ 254) then e' :: safeEmailsFilter rest
      else safeEmailsFilter rest

/-- The "unique preserve order" pass of `_safe_emails`
(src/notifications/services.py:51-58). -/
def dedupGo (seen : List Str) : List Str → List Str
  | [] => []
  | e :: rest => if e ∈ seen then dedupGo seen rest else e :: dedupGo (e :: seen) rest

/-- De-duplicate keeping the first occurrence of each element. -/
def dedupKeepFirst (l : List Str) : List Str := dedupGo [] l

/-- `_safe_emails` (src/notifications/services.py:42-58). -/
def safeEmails (emails : List (Option Str)) : List Str :=
  dedupKeepFirst (safeEmailsFilter emails)

/-- Python `str(value)` for the record's expiry date; `str(None) = "None"`,
a date renders as its string form (modelled via `toString` on the ordinal). -/
def dateStr : Option Int → Str
  | none => str "None"
  | some d => str (toString d)

/-- The default subject template of `_render_subject`
(src/notifications/services.py:63-65). -/
def defaultSubjectTemplate : Str :=
  str "[EMSTEEL | Certificates & Licenses] {kind} • {title} ({ref}) • {days} day(s) left"

/-- `_render_subject` (src/notifications/services.py:61-72): choose the
rule's template when non-empty, substitute the four subject tokens, strip. -/
def renderSubject (rule : NotificationRule) (record : Record) (kind : Str) (daysLeft : Int) : Str :=
  let template :=
    if rule.emailSubjectTemplate.isEmpty then defaultSubjectTemplate
    else rule.emailSubjectTemplate
  pyStrip
    (strReplace
      (strReplace
        (strReplace
          (strReplace template (str "{kind}") kind)
          (str "{title}") record.title)
        (str "{ref}") (if record.referenceNo.isEmpty then str "N/A" else record.referenceNo))
      (str "{days}") (str (toString daysLeft)))

/-- The default body template of `_render_body`
(src/notifications/services.py:77-90). -/
def defaultBodyTemplate : Str :=
  str ("Dear Team,\n\nThis is an automated {kind} from EMSTEEL – IT Information Technology.\n\n"
    ++ "Record Details:\n- Title: {title}\n- Reference No: {ref}\n- Expiry Date: {expiry}\n"
    ++ "- Remaining: {days} day(s)\n\nAction Required:\n"
    ++ "Please review and proceed with renewal / closure before the expiry date to maintain compliance and continuity.\n\n"
    ++ "Regards,\nEMSTEEL – IT Information Technology\nIT Client Excellence\n")

/-- `_render_body` (src/notifications/services.py:75-97): choose the rule's
template when non-empty and substitute the five body tokens (no strip). -/
def renderBody (rule : NotificationRule) (record : Record) (kind : Str) (daysLeft : Int) : Str :=
  let template :=
    if rule.emailBodyTemplate.isEmpty then defaultBodyTemplate
    else rule.emailBodyTemplate
  strReplace
    (strReplace
      (strReplace
        (strReplace
          (strReplace template (str "{kind}") kind)
          (str "{title}") record.title)
        (str "{ref}") (if record.referenceNo.isEmpty then str "N/A" else record.referenceNo))
      (str "{expiry}") (dateStr record.expiryDate))
    (str "{days}") (str (toString daysLeft))

/-- Django settings read by `_send_email`: both may be absent or empty. -/
structure Settings where
  emailHostUser : Option Str
  defaultFromEmail : Option Str
deriving DecidableEq

/-- Python `x or d` on an optional string: `None` and `""` give the default. -/
def pyOrDefault (v : Option Str) (d : Str) : Str :=
  match v with
  | none => d
  | some s => if s.isEmpty then d else s

/-- The authenticated mailbox of `_send_email`
(src/notifications/services.py:106). -/
def mailboxOf (st : Settings) : Str :=
  pyOrDefault st.emailHostUser (str "no-reply@example.com")

/-- The configured display from-address of `_send_email`
(src/notifications/services.py:107). -/
def defaultFromOf (st : Settings) : Str :=
  pyOrDefault st.defaultFromEmail []

/-- Python substring test `p in s` on strings. -/
def occursIn (p s : Str) : Bool := decide (p <:+: s)

/-- The from-address policy of `_send_email`
(src/notifications/services.py:108): use the display address only when it
contains the mailbox, else the mailbox verbatim. -/
def fromAddress (st : Settings) : Str :=
  if occursIn (mailboxOf st) (defaultFromOf st) then defaultFromOf st else mailboxOf st

/-- The unique-constraint key of `NotificationLog`
(src/notifications/models.py:147-152): (record, rule, kind, trigger_date). -/
abbrev LogKey := Nat × Nat × NotificationKind × Int

/-- A `NotificationLog` row, restricted to the fields the engine writes. -/
structure LogEntry where
  organizationId : Nat
  recordId : Nat
  ruleId : Nat
  kind : NotificationKind
  triggerDate : Int
  status : NotificationStatus
  errorMessage : Str
  recipients : List Str
  payloadSummary : Str
  sentAtSet : Bool
deriving DecidableEq

/-- The uniqueness key of a log row. -/
def logKey (l : LogEntry) : LogKey := (l.recordId, l.ruleId, l.kind, l.triggerDate)

/-- `NotificationLog.mark_failed` (src/notifications/models.py:175-177):
status becomes `failed`, the error text is truncated to 5000 characters. -/
def markFailed (l : LogEntry) (error : Str) : LogEntry :=
  { l with status := NotificationStatus.failed, errorMessage := error.take 5000 }

/-- `NotificationLog.mark_sent` (src/notifications/models.py:167-173):
status `sent`, `sent_at` set, recipients snapshot stored, payload summary
stored when non-empty. -/
def markSent (l : LogEntry) (recipients : List Str) (payloadSummary : Str) : LogEntry :=
  { l with
    status := NotificationStatus.sent
    sentAtSet := true
    recipients := recipients
    payloadSummary := if payloadSummary.isEmpty then l.payloadSummary else payloadSummary }

/-- Identity of one (record, rule, kind) attempt of a run. -/
abbrev AttemptId := Nat × Nat × NotificationKind

/-- The uniqueness key an attempt claims on a given run date. -/
def keyOfAid (a : AttemptId) (runDate : Int) : LogKey := (a.1, a.2.1, a.2.2, runDate)

/-- The environment a sweep runs against: the rule and record stores, the
user store (for the escalation fallback), the Django settings, and the mail
transport.  The transport is an oracle deciding, per attempt and message,
whether `EmailMultiAlternatives.send` succeeds or raises (the exception's
text being the `Except.error` payload). -/
structure Env where
  rules : List NotificationRule
  records : List Record
  users : List User
  settings : Settings
  dispatch : Nat → Nat → NotificationKind → Str → List Str → Str → Str → Except Str Unit

/-- The mutable state of one `run_notifications_for_org` sweep: the
`NotificationLog` table plus the four summary counters
(src/notifications/services.py:182).  `claimSkips` (how many skips came
from an already-claimed key) and `attempts` (the trace of attempts, i.e.
of `_create_log_or_skip` calls) are ghost observations used only by the
theorems; the source keeps a single `skipped` counter. -/
structure RunState where
  logs : List LogEntry
  created : Nat
  sent : Nat
  failed : Nat
  skipped : Nat
  claimSkips : Nat
  attempts : List AttemptId
deriving DecidableEq

/-- Does the log table already hold a row with this uniqueness key?  The
`IntegrityError` branch of `_create_log_or_skip`
(src/notifications/services.py:114-137) is modelled as this test: the
insert violates the unique constraint exactly when the key is present, the
violation is caught and reported as "not created" rather than crashing. -/
def hasKey (logs : List LogEntry) (k : LogKey) : Bool :=
  logs.any fun l => decide (logKey l = k)

/-- The fresh `pending` row `_create_log_or_skip` inserts
(src/notifications/services.py:127-134). -/
def pendingLog (record : Record) (rule : NotificationRule) (kind : NotificationKind)
    (triggerDate : Int) : LogEntry :=
  { organizationId := record.organizationId
    recordId := record.id
    ruleId := rule.id
    kind := kind
    triggerDate := triggerDate
    status := NotificationStatus.pending
    errorMessage := []
    recipients := []
    payloadSummary := []
    sentAtSet := false }

/-- `_get_org_managers_emails` (src/notifications/services.py:140-157):
active admin/manager users of the organization with a non-empty email,
passed through `_safe_emails`. -/
def getOrgManagersEmails (users : List User) (orgId : Nat) : List Str :=
  safeEmails
    ((users.filter fun u =>
        decide (u.organizationId = some orgId) &&
        (decide (u.role = UserRole.admin) || decide (u.role = UserRole.manager)) &&
        u.isActive && !u.email.isEmpty).map fun u => some u.email)

/-- The escalation recipient resolution
(src/notifications/services.py:241-246): explicit rule recipients first,
org managers as fallback. -/
def escRecipients (env : Env) (rule : NotificationRule) (record : Record) : List Str :=
  let explicit := safeEmails (rule.escalationRecipients.map some)
  if explicit.isEmpty then getOrgManagersEmails env.users record.organizationId else explicit

/-- The no-recipient reason for a skipped reminder
(src/notifications/services.py:209). -/
def noOwnerMsg : Str := str "No owner email to send reminder."

/-- The no-recipient reason for a skipped escalation
(src/notifications/services.py:250). -/
def noEscMsg : Str := str "No escalation recipients configured and no org managers found."

/-- One claimed-or-skipped notification attempt: `_create_log_or_skip`
followed by the try/except body of `run_notifications_for_org`
(src/notifications/services.py:199-224 for reminders, 235-265 for
escalations; the two bodies differ only in recipients, kind label and
no-recipient message, which are passed in).  `toEmails` is the attempt's
recipient list — its computation in the source happens inside the `try`
but is pure and state-independent, so it is precomputed by the caller. -/
def attemptStep (env : Env) (runDate : Int) (rule : NotificationRule) (record : Record)
    (kind : NotificationKind) (daysLeft : Int) (toEmails : List Str)
    (noRecipMsg : Str) (kindLabel : Str) (st : RunState) : RunState :=
  if hasKey st.logs (record.id, rule.id, kind, runDate) then
    { st with
      attempts := st.attempts ++ [(record.id, rule.id, kind)]
      skipped := st.skipped + 1
      claimSkips := st.claimSkips + 1 }
  else if toEmails.isEmpty then
    { st with
      attempts := st.attempts ++ [(record.id, rule.id, kind)]
      logs := st.logs ++
        [{ pendingLog record rule kind runDate with
            status := NotificationStatus.skipped, errorMessage := noRecipMsg }]
      created := st.created + 1
      skipped := st.skipped + 1 }
  else
    match env.dispatch record.id rule.id kind (fromAddress env.settings) toEmails
        (renderSubject rule record kindLabel daysLeft)
        (renderBody rule record kindLabel daysLeft) with
    | Except.ok _ =>
      { st with
        attempts := st.attempts ++ [(record.id, rule.id, kind)]
        logs := st.logs ++
          [markSent (pendingLog record rule kind runDate) toEmails
            (renderSubject rule record kindLabel daysLeft)]
        created := st.created + 1
        sent := st.sent + 1 }
    | Except.error e =>
      { st with
        attempts := st.attempts ++ [(record.id, rule.id, kind)]
        logs := st.logs ++ [markFailed (pendingLog record rule kind runDate) e]
        created := st.created + 1
        failed := st.failed + 1 }

/-- The reminder block of the inner loop
(src/notifications/services.py:196-224): attempt a reminder when
`days_left` is a reminder offset, to the owner's email. -/
def reminderPhase (env : Env) (runDate : Int) (rule : NotificationRule) (record : Record)
    (daysLeft : Int) (st : RunState) : RunState :=
  if rule.offsetsDays.contains daysLeft then
    attemptStep env runDate rule record NotificationKind.reminder daysLeft
      (safeEmails [record.ownerEmail]) noOwnerMsg (str "Reminder") st
  else st

/-- The escalation block of the inner loop
(src/notifications/services.py:226-265): attempt an escalation when
enabled and `days_left` is an escalation offset, unless the record is
renewed or archived. -/
def escalationPhase (env : Env) (runDate : Int) (rule : NotificationRule) (record : Record)
    (daysLeft : Int) (st : RunState) : RunState :=
  if rule.escalateEnabled && rule.escalateOffsetsDays.contains daysLeft then
    if decide (record.status = RecordStatus.renewed) ||
       decide (record.status = RecordStatus.archived) then st
    else
      attemptStep env runDate rule record NotificationKind.escalation daysLeft
        (escRecipients env rule record) noEscMsg (str "Escalation") st
  else st

/-- The inner loop body of `run_notifications_for_org` for one
(rule, record) pair (src/notifications/services.py:188-265): skip when the
record has no expiry date or the rule does not match, then evaluate the
reminder and the escalation independently. -/
def processPair (env : Env) (runDate : Int) (rule : NotificationRule)
    (st : RunState) (record : Record) : RunState :=
  match record.expiryDate with
  | none => st
  | some exp =>
    if !matchesRecord rule record then st
    else
      escalationPhase env runDate rule record (exp - runDate)
        (reminderPhase env runDate rule record (exp - runDate) st)

/-- The rules queryset of the run (src/notifications/services.py:171-174):
enabled rules of the organization. -/
def enabledRules (env : Env) (orgId : Nat) : List NotificationRule :=
  env.rules.filter fun r => decide (r.organizationId = orgId) && r.enabled

/-- The records queryset of the run (src/notifications/services.py:176-180):
records of the organization, archived ones excluded. -/
def activeRecords (env : Env) (orgId : Nat) : List Record :=
  env.records.filter fun r =>
    decide (r.organizationId = orgId) && !decide (r.status = RecordStatus.archived)

/-- The initial state of a sweep: the pre-existing log table and zeroed
counters. -/
def initState (logs0 : List LogEntry) : RunState :=
  { logs := logs0, created := 0, sent := 0, failed := 0, skipped := 0,
    claimSkips := 0, attempts := [] }

/-- `run_notifications_for_org` (src/notifications/services.py:163-274):
iterate enabled rules, then records, processing each pair.  The returned
`RunState` carries the log table and the summary counters of the returned
dict. -/
def runNotificationsForOrg (env : Env) (orgId : Nat) (runDate : Int)
    (logs0 : List LogEntry) : RunState :=
  (enabledRules env orgId).foldl
    (fun st rule => (activeRecords env orgId).foldl (processPair env runDate rule) st)
    (initState logs0)

/-- Concrete fixture: a plain active record of organization 1 expiring on
day 30, with a valid owner email. -/
def rec0 : Record :=
  { id := 1, organizationId := 1, title := str "Fire Cert", referenceNo := str "R-1",
    expiryDate := some 30, status := RecordStatus.active, ownerEmail := some (str "own@x.com"),
    recordType := str "certificate", category := str "other" }

/-- Concrete fixture: an enabled applies-to-all rule of organization 1
with reminder offset 30 and escalation offset 30. -/
def rule0 : NotificationRule :=
  { id := 1, organizationId := 1, enabled := true, appliesToAll := true,
    recordType := none, category := none, offsetsDays := [30], escalateEnabled := true,
    escalateOffsetsDays := [30], escalationRecipients := [str "esc@x.com"],
    emailSubjectTemplate := str "S", emailBodyTemplate := str "B" }

/-- Concrete fixture: a transport that always succeeds. -/
def okDispatch : Nat → Nat → NotificationKind → Str → List Str → Str → Str → Except Str Unit :=
  fun _ _ _ _ _ _ _ => Except.ok ()

/-- Concrete fixture: a one-rule one-record environment for organization 1. -/
def env0 : Env :=
  { rules := [rule0], records := [rec0], users := [],
    settings := ⟨some (str "mb@x.com"), none⟩, dispatch := okDispatch }

/-- Apply a list of (token, value) substitutions left to right with
`strReplace`; used to characterize the renderers. -/
def substAll (t : Str) (ps : List (Str × Str)) : Str :=
  ps.foldl (fun s p => strReplace s p.1 p.2) t

/-- The (token, value) substitutions `_render_subject` performs, in source
order: kind, title, reference-or-"N/A", days-left.  (The expiry token is
not among them.) -/
def subjectTokens (record : Record) (kind : Str) (daysLeft : Int) : List (Str × Str) :=
  [(str "{kind}", kind),
   (str "{title}", record.title),
   (str "{ref}", if record.referenceNo.isEmpty then str "N/A" else record.referenceNo),
   (str "{days}", str (toString daysLeft))]

/-- The (token, value) substitutions `_render_body` performs, in source
order: kind, title, reference-or-"N/A", expiry date, days-left. -/
def bodyTokens (record : Record) (kind : Str) (daysLeft : Int) : List (Str × Str) :=
  [(str "{kind}", kind),
   (str "{title}", record.title),
   (str "{ref}", if record.referenceNo.isEmpty then str "N/A" else record.referenceNo),
   (str "{expiry}", dateStr record.expiryDate),
   (str "{days}", str (toString daysLeft))]

/-- The escalation fallback recipient list in the words of claim C4:
"the emails of all active users of the record's tenant whose role is
admin or manager and whose email is non-empty" — with no further
filtering.  Used to compare the claim against `_get_org_managers_emails`,
which additionally passes this list through `_safe_emails`. -/
def specFallbackEmails (users : List User) (orgId : Nat) : List Str :=
  (users.filter fun u =>
      decide (u.organizationId = some orgId) &&
      (decide (u.role = UserRole.admin) || decide (u.role = UserRole.manager)) &&
      u.isActive && !u.email.isEmpty).map fun u => u.email

/-- Concrete fixture: an active manager of organization 1 whose stored
email has no "@" (syntactically invalid but non-empty). -/
def userBob : User :=
  { id := 7, organizationId := some 1, role := UserRole.manager,
    isActive := true, email := str "bob" }

/-- Concrete fixture: an escalation-only rule with no explicit recipients. -/
def ruleEscOnly : NotificationRule :=
  { id := 1, organizationId := 1, enabled := true, appliesToAll := true,
    recordType := none, category := none, offsetsDays := [], escalateEnabled := true,
    escalateOffsetsDays := [30], escalationRecipients := [],
    emailSubjectTemplate := str "S", emailBodyTemplate := str "B" }

/-- Concrete fixture: environment whose only escalation recipient source
is `userBob`. -/
def envBob : Env :=
  { rules := [ruleEscOnly], records := [rec0], users := [userBob],
    settings := ⟨some (str "mb@x.com"), none⟩, dispatch := okDispatch }

/-- An element of a JSON list as `NotificationRule.clean` sees it: either
a Python `int` or some other JSON value (string, float, null, ...)
described by a tag. -/
inductive PyVal where
  | pint (n : Int)
  | pother (tag : Str)
deriving DecidableEq

/-- `isinstance(x, int) and x >= 0`: the element-level acceptance test of
`NotificationRule.clean` (src/notifications/models.py:76,95). -/
def isGoodOffset : PyVal → Bool
  | PyVal.pint n => decide (0 ≤ n)
  | PyVal.pother _ => false

/-- The per-element loop of `clean`: reject any element that is not a
non-negative integer, keep the integer values in order
(src/notifications/models.py:74-78 and 93-97). -/
def checkOffsets : List PyVal → Option (List Int)
  | [] => some []
  | PyVal.pint n :: rest =>
    if n < 0 then none else (checkOffsets rest).map (fun m => n :: m)
  | PyVal.pother _ :: _ => none

/-- Insert into a strictly descending list, dropping duplicates. -/
def insertDesc (x : Int) : List Int → List Int
  | [] => [x]
  | y :: ys => if y < x then x :: y :: ys else if x = y then y :: ys else y :: insertDesc x ys

/-- `sorted(set(l), reverse=True)`: de-duplicate and sort descending. -/
def sortedDescSet (l : List Int) : List Int := l.foldr insertDesc []

/-- One offsets field of `clean`: element validation followed by
normalization `sorted(set(...), reverse=True)`
(src/notifications/models.py:74-81, 93-98). -/
def cleanOffsets (l : List PyVal) : Option (List Int) :=
  (checkOffsets l).map sortedDescSet

/-- The fields of a `NotificationRule` that `clean` validates, with the
offset lists still raw JSON. -/
structure RuleForm where
  appliesToAll : Bool
  recordType : Option Str
  category : Option Str
  offsetsDays : List PyVal
  escalateOffsetsDays : List PyVal
deriving DecidableEq

/-- `NotificationRule.clean` (src/notifications/models.py:70-98): validate
and normalize `offsets_days`, check the scope constraint, then validate
and normalize `escalate_offsets_days`.  `none` models a raised
`ValidationError`; `some (offs, escOffs)` the normalized lists written
back to the instance. -/
def ruleClean (f : RuleForm) : Option (List Int × List Int) :=
  match cleanOffsets f.offsetsDays with
  | none => none
  | some offs =>
    if !f.appliesToAll && !(optTruthy f.recordType || optTruthy f.category) then none
    else
      match cleanOffsets f.escalateOffsetsDays with
      | none => none
      | some escOffs => some (offs, escOffs)

/-- The attempts one (rule, record) pair contributes to a sweep, as the
amended claim C2 predicts them: none without an expiry date or a match;
otherwise a reminder attempt iff `days_left` is a reminder offset, and an
escalation attempt iff escalation is enabled, `days_left` is an
escalation offset, and the record is neither renewed nor archived. -/
def specDueAttempts (runDate : Int) (rule : NotificationRule) (record : Record) :
    List AttemptId :=
  match record.expiryDate with
  | none => []
  | some exp =>
    if !matchesRecord rule record then []
    else
      let d := exp - runDate
      (if rule.offsetsDays.contains d then
        [(record.id, rule.id, NotificationKind.reminder)] else []) ++
      (if rule.escalateEnabled && rule.escalateOffsetsDays.contains d &&
          !(decide (record.status = RecordStatus.renewed) ||
            decide (record.status = RecordStatus.archived)) then
        [(record.id, rule.id, NotificationKind.escalation)] else [])

/-- The attempts a whole sweep makes, per the amended claim C2: one pass
over the enabled rules and the non-archived records of the tenant. -/
def specRunAttempts (env : Env) (orgId : Nat) (runDate : Int) : List AttemptId :=
  (enabledRules env orgId).flatMap
    (fun rule => (activeRecords env orgId).flatMap (specDueAttempts runDate rule))

/-- The finalized row a non-claimed attempt appends: `skipped` without
recipients, else `sent` or `failed` according to the dispatch outcome. -/
def finalizedLog (env : Env) (runDate : Int) (rule : NotificationRule) (record : Record)
    (kind : NotificationKind) (daysLeft : Int) (toEmails : List Str)
    (noRecipMsg : Str) (kindLabel : Str) : LogEntry :=
  if toEmails.isEmpty then
    { pendingLog record rule kind runDate with
        status := NotificationStatus.skipped, errorMessage := noRecipMsg }
  else
    match env.dispatch record.id rule.id kind (fromAddress env.settings) toEmails
        (renderSubject rule record kindLabel daysLeft)
        (renderBody rule record kindLabel daysLeft) with
    | Except.ok _ =>
      markSent (pendingLog record rule kind runDate) toEmails
        (renderSubject rule record kindLabel daysLeft)
    | Except.error e => markFailed (pendingLog record rule kind runDate) e

/-- The attempt identity of a log row. -/
def logAid (l : LogEntry) : AttemptId := (l.recordId, l.ruleId, l.kind)

/-- Concrete fixture: `rec0` archived. -/
def recArchived : Record := { rec0 with status := RecordStatus.archived }

/-- Concrete fixture: environment holding only the archived record. -/
def envArchived : Env := { env0 with records := [recArchived] }

/-- Two run states agree on everything a dispatch outcome at attempt `k`
cannot influence: the key trace of the log table, all log rows of other
attempts, and the created / skipped / claim-skip counters and attempt
trace.  (Only the `k` row's final status and the sent/failed counters may
differ.) -/
def eqExcept (k : AttemptId) (s s' : RunState) : Prop :=
  s.logs.map logKey = s'.logs.map logKey
  ∧ s.logs.filter (fun l => !(decide (logAid l = k)))
      = s'.logs.filter (fun l => !(decide (logAid l = k)))
  ∧ s.created = s'.created
  ∧ s.skipped = s'.skipped
  ∧ s.claimSkips = s'.claimSkips
  ∧ s.attempts = s'.attempts

/-- Concrete fixture: a transport failing exactly for attempt
(record 1, rule 1, reminder). -/
def failDispatch : Nat → Nat → NotificationKind → Str → List Str → Str → Str →
    Except Str Unit :=
  fun rid ruleId kind _ _ _ _ =>
    if (rid, ruleId, kind) = ((1 : Nat), (1 : Nat), NotificationKind.reminder) then
      Except.error (str "boom")
    else Except.ok ()

end LMS

namespace LMS

/-- A dimension does not block exactly when, whenever it is set and
non-empty, the record's field equals it. -/
theorem dimBlocks_false_iff (dim : Option Str) (field : Str) :
    dimBlocks dim field = false ↔ (∀ s, dim = some s → s ≠ [] → field = s) := by
  cases dim with
  | none => simp [dimBlocks]
  | some s =>
    by_cases hne : s = []
    · simp [dimBlocks, hne]
    · simp [dimBlocks, List.isEmpty_iff, hne]

/-- Claim C3: `matches_record` returns false across tenants; within a
tenant it is unconditionally true for an `applies_to_all` rule, and
otherwise true exactly when every non-empty rule dimension equals the
record's corresponding field (an unset dimension is a wildcard); in
particular, with both dimensions set it is true iff both fields are equal.
The embedding `matchesRecord` is a pure function, so the no-side-effects
part holds by construction. -/
theorem matches_record_spec : ∀ (rule : NotificationRule) (record : Record),
    (record.organizationId ≠ rule.organizationId → matchesRecord rule record = false)
    ∧ (record.organizationId = rule.organizationId → rule.appliesToAll = true →
        matchesRecord rule record = true)
    ∧ (record.organizationId = rule.organizationId → rule.appliesToAll = false →
        (matchesRecord rule record = true ↔
          (∀ s, rule.recordType = some s → s ≠ [] → record.recordType = s) ∧
          (∀ s, rule.category = some s → s ≠ [] → record.category = s)))
    ∧ (∀ t c, record.organizationId = rule.organizationId → rule.appliesToAll = false →
        rule.recordType = some t → t ≠ [] → rule.category = some c → c ≠ [] →
        (matchesRecord rule record = true ↔
          (record.recordType = t ∧ record.category = c))) := by
  intro rule record
  refine ⟨?_, ?_, ?_, ?_⟩
  · intro h; simp [matchesRecord, h]
  · intro h ha; simp [matchesRecord, h, ha]
  · intro h ha
    simp only [matchesRecord, h, ha, ne_eq, not_true_eq_false, if_false, Bool.false_eq_true]
    rw [← dimBlocks_false_iff, ← dimBlocks_false_iff]
    by_cases h1 : dimBlocks rule.recordType record.recordType <;>
      by_cases h2 : dimBlocks rule.category record.category <;>
        simp [h1, h2]
  · intro t c h ha ht htne hc hcne
    simp only [matchesRecord, h, ha, ne_eq, not_true_eq_false, if_false, Bool.false_eq_true,
      ht, hc, dimBlocks, List.isEmpty_iff]
    by_cases h1 : record.recordType = t <;> by_cases h2 : record.category = c <;>
      simp [h1, h2, htne, hcne]

/-- Witness for C3 at concrete inputs: a cross-tenant record never matches;
a same-tenant record matches a fully specified rule iff both fields agree. -/
theorem matches_record_spec_witness :
    matchesRecord
      { id := 1, organizationId := 1, enabled := true, appliesToAll := true,
        recordType := none, category := none, offsetsDays := [], escalateEnabled := false,
        escalateOffsetsDays := [], escalationRecipients := [],
        emailSubjectTemplate := [], emailBodyTemplate := [] }
      { id := 1, organizationId := 2, title := [], referenceNo := [],
        expiryDate := none, status := RecordStatus.active, ownerEmail := none,
        recordType := str "license", category := str "hse" } = false
    ∧ matchesRecord
      { id := 1, organizationId := 1, enabled := true, appliesToAll := false,
        recordType := some (str "license"), category := some (str "hse"),
        offsetsDays := [], escalateEnabled := false,
        escalateOffsetsDays := [], escalationRecipients := [],
        emailSubjectTemplate := [], emailBodyTemplate := [] }
      { id := 1, organizationId := 1, title := [], referenceNo := [],
        expiryDate := none, status := RecordStatus.active, ownerEmail := none,
        recordType := str "license", category := str "hse" } = true := by
  constructor
  · exact (matches_record_spec _ _).1 (by decide)
  · exact ((matches_record_spec _ _).2.2.2 (str "license") (str "hse")
      rfl rfl rfl (by decide) rfl (by decide)).mpr (by decide)

/-- Claim C8: the dispatcher's from-address is the configured display
address when that contains the authenticated mailbox, else the mailbox
verbatim; in either case the from-address contains the mailbox. -/
theorem from_address_spec : ∀ st : Settings,
    occursIn (mailboxOf st) (fromAddress st) = true
    ∧ (occursIn (mailboxOf st) (defaultFromOf st) = true →
        fromAddress st = defaultFromOf st)
    ∧ (occursIn (mailboxOf st) (defaultFromOf st) = false →
        fromAddress st = mailboxOf st) := by
  intro st
  refine ⟨?_, ?_, ?_⟩
  · by_cases h : (mailboxOf st) <:+: (defaultFromOf st)
    · simp [fromAddress, occursIn, h]
    · simp [fromAddress, occursIn, h, List.infix_refl]
  · intro h
    simp only [occursIn, decide_eq_true_eq] at h
    simp [fromAddress, occursIn, h]
  · intro h
    simp only [occursIn, decide_eq_false_iff_not] at h
    simp [fromAddress, occursIn, h]

/-- Witness for C8 at concrete settings: a display name containing the
mailbox is kept; one not containing it is replaced by the mailbox. -/
theorem from_address_spec_witness :
    fromAddress ⟨some (str "mb@x.com"), some (str "LMS <mb@x.com>")⟩ = str "LMS <mb@x.com>"
    ∧ fromAddress ⟨some (str "mb@x.com"), some (str "LMS <other@y.com>")⟩ = str "mb@x.com" := by
  constructor
  · exact (from_address_spec _).2.1 (by decide)
  · exact (from_address_spec _).2.2 (by decide)

/-- Claim C9: `mark_failed` stores exactly the first 5000 characters of
the error text: a 6000-character message is cut to its first 5000
characters, and a message of at most 5000 characters is stored unchanged. -/
theorem mark_failed_truncation : ∀ (l : LogEntry) (e : Str),
    (markFailed l e).status = NotificationStatus.failed
    ∧ (markFailed l e).errorMessage = e.take 5000
    ∧ (e.length = 6000 → (markFailed l e).errorMessage.length = 5000
        ∧ (markFailed l e).errorMessage <+: e)
    ∧ (e.length ≤ 5000 → (markFailed l e).errorMessage = e) := by
  intro l e
  refine ⟨rfl, rfl, ?_, ?_⟩
  · intro h
    constructor
    · simp [markFailed, List.length_take, h]
    · have hp := List.take_prefix 5000 e
      simpa [markFailed] using hp
  · intro h
    simp [markFailed, List.take_of_length_le h]

/-- A pattern that does not occur in a string is not replaced: the worker
returns the string unchanged, for any fuel. -/
theorem strReplaceGo_not_occur (fuel : Nat) (s pat rep : Str) (h : ¬(pat <:+: s)) :
    strReplaceGo fuel s pat rep = s := by
  induction fuel generalizing s with
  | zero => cases s <;> rfl
  | succ fuel ih =>
    cases s with
    | nil => rfl
    | cons c rest =>
      have hpre : pat.isPrefixOf (c :: rest) = false := by
        rw [Bool.eq_false_iff]
        intro hc
        exact h (List.IsPrefix.isInfix ( List.isPrefixOf_iff_prefix.mp hc))
      have hrest : ¬(pat <:+: rest) := fun hc => h (List.infix_cons_iff.mpr (Or.inr hc))
      simp [strReplaceGo, hpre, ih rest hrest]

/-- A pattern that does not occur in a string is not replaced. -/
theorem strReplace_not_occur (s pat rep : Str) (h : ¬(pat <:+: s)) :
    strReplace s pat rep = s :=
  strReplaceGo_not_occur s.length s pat rep h

/-- Claim C7 (amended): both renderers use the rule's custom template when
non-empty and the fixed default otherwise, and perform literal token
replacement; the subject substitutes exactly kind, title,
reference-or-"N/A" and days-left (and is whitespace-stripped), the body
additionally substitutes the expiry date; a template containing none of
the recognized tokens is rendered verbatim (modulo the subject's strip). -/
theorem render_tokens_spec : ∀ (rule : NotificationRule) (record : Record) (kind : Str)
    (daysLeft : Int),
    renderSubject rule record kind daysLeft =
      pyStrip (substAll
        (if rule.emailSubjectTemplate.isEmpty then defaultSubjectTemplate
         else rule.emailSubjectTemplate)
        (subjectTokens record kind daysLeft))
    ∧ renderBody rule record kind daysLeft =
      substAll
        (if rule.emailBodyTemplate.isEmpty then defaultBodyTemplate
         else rule.emailBodyTemplate)
        (bodyTokens record kind daysLeft)
    ∧ (rule.emailSubjectTemplate ≠ [] →
        (∀ p ∈ subjectTokens record kind daysLeft, ¬(p.1 <:+: rule.emailSubjectTemplate)) →
        renderSubject rule record kind daysLeft = pyStrip rule.emailSubjectTemplate)
    ∧ (rule.emailBodyTemplate ≠ [] →
        (∀ p ∈ bodyTokens record kind daysLeft, ¬(p.1 <:+: rule.emailBodyTemplate)) →
        renderBody rule record kind daysLeft = rule.emailBodyTemplate) := by
  intro rule record kind daysLeft
  refine ⟨rfl, rfl, ?_, ?_⟩
  · intro hne hnocc
    have hemp : rule.emailSubjectTemplate.isEmpty = false := by
      simpa [List.isEmpty_iff] using hne
    have h1 : ¬(str "{kind}" <:+: rule.emailSubjectTemplate) :=
      hnocc (str "{kind}", kind) (by simp [subjectTokens])
    have h2 : ¬(str "{title}" <:+: rule.emailSubjectTemplate) :=
      hnocc (str "{title}", record.title) (by simp [subjectTokens])
    have h3 : ¬(str "{ref}" <:+: rule.emailSubjectTemplate) :=
      hnocc (str "{ref}", if record.referenceNo.isEmpty then str "N/A" else record.referenceNo)
        (by simp [subjectTokens])
    have h4 : ¬(str "{days}" <:+: rule.emailSubjectTemplate) :=
      hnocc (str "{days}", str (toString daysLeft)) (by simp [subjectTokens])
    simp only [renderSubject, hemp, Bool.false_eq_true, if_false]
    rw [strReplace_not_occur _ _ _ h1, strReplace_not_occur _ _ _ h2,
        strReplace_not_occur _ _ _ h3, strReplace_not_occur _ _ _ h4]
  · intro hne hnocc
    have hemp : rule.emailBodyTemplate.isEmpty = false := by
      simpa [List.isEmpty_iff] using hne
    have h1 : ¬(str "{kind}" <:+: rule.emailBodyTemplate) :=
      hnocc (str "{kind}", kind) (by simp [bodyTokens])
    have h2 : ¬(str "{title}" <:+: rule.emailBodyTemplate) :=
      hnocc (str "{title}", record.title) (by simp [bodyTokens])
    have h3 : ¬(str "{ref}" <:+: rule.emailBodyTemplate) :=
      hnocc (str "{ref}", if record.referenceNo.isEmpty then str "N/A" else record.referenceNo)
        (by simp [bodyTokens])
    have h4 : ¬(str "{expiry}" <:+: rule.emailBodyTemplate) :=
      hnocc (str "{expiry}", dateStr record.expiryDate) (by simp [bodyTokens])
    have h5 : ¬(str "{days}" <:+: rule.emailBodyTemplate) :=
      hnocc (str "{days}", str (toString daysLeft)) (by simp [bodyTokens])
    simp only [renderBody, hemp, Bool.false_eq_true, if_false]
    rw [strReplace_not_occur _ _ _ h1, strReplace_not_occur _ _ _ h2,
        strReplace_not_occur _ _ _ h3, strReplace_not_occur _ _ _ h4,
        strReplace_not_occur _ _ _ h5]

/-- Counterexample to C7 as stated: the subject renderer does NOT
substitute the expiry token.  With the custom subject template
consisting of the expiry token alone, the rendered subject leaves it
verbatim, while the body renderer on the same template substitutes the
record's expiry date. -/
theorem render_subject_expiry_counterexample :
    renderSubject { rule0 with emailSubjectTemplate := str "{expiry}" } rec0
      (str "Reminder") 30 = str "{expiry}"
    ∧ renderBody { rule0 with emailBodyTemplate := str "{expiry}" } rec0
      (str "Reminder") 30 = str "30"
    ∧ dateStr rec0.expiryDate = str "30"
    ∧ str "{expiry}" ≠ str "30" := by decide

/-- Witness for the amended C7: a tokenless custom template passes through
both renderers verbatim. -/
theorem render_tokens_spec_witness :
    renderSubject { rule0 with emailSubjectTemplate := str " plain words " } rec0
      (str "Reminder") 30 = str "plain words"
    ∧ renderBody { rule0 with emailBodyTemplate := str "plain body" } rec0
      (str "Reminder") 30 = str "plain body" := by
  constructor
  · have h := (render_tokens_spec { rule0 with emailSubjectTemplate := str " plain words " }
      rec0 (str "Reminder") 30).2.2.1 (by decide) (by decide)
    rw [h]; decide
  · exact (render_tokens_spec { rule0 with emailBodyTemplate := str "plain body" }
      rec0 (str "Reminder") 30).2.2.2 (by decide) (by decide)

/-- Every element the `_safe_emails` filter keeps contains an "@" and has
length at most 254. -/
theorem safeEmailsFilter_valid (l : List (Option Str)) :
    ∀ e ∈ safeEmailsFilter l, e.contains '@' = true ∧ e.length ≤ 254 := by
  induction l with
  | nil => simp [safeEmailsFilter]
  | cons o rest ih =>
    cases o with
    | none => simpa [safeEmailsFilter] using ih
    | some s =>
      intro e he
      rw [safeEmailsFilter] at he
      by_cases hemp : s.isEmpty = true
      · rw [if_pos hemp] at he
        exact ih e he
      · rw [if_neg hemp] at he
        by_cases hcond : ((pyStrip s).contains '@' && decide ((pyStrip s).length ≤ 254)) = true
        · rw [if_pos hcond] at he
          rcases List.mem_cons.mp he with rfl | he
          · simpa using hcond
          · exact ih e he
        · rw [if_neg hcond] at he
          exact ih e he

/-- `dedupGo` never emits an element of `seen`. -/
theorem dedupGo_not_mem_seen (l : List Str) :
    ∀ (seen : List Str) (e : Str), e ∈ seen → e ∉ dedupGo seen l := by
  induction l with
  | nil => simp [dedupGo]
  | cons x rest ih =>
    intro seen e he
    by_cases hx : x ∈ seen
    · simpa [dedupGo, hx] using ih seen e he
    · simp only [dedupGo, hx, if_false, List.mem_cons, not_or]
      constructor
      · rintro rfl; exact hx he
      · exact ih (x :: seen) e (List.mem_cons_of_mem _ he)

/-- The output of `dedupGo` has no duplicates. -/
theorem dedupGo_nodup (l : List Str) : ∀ seen : List Str, (dedupGo seen l).Nodup := by
  induction l with
  | nil => simp [dedupGo]
  | cons x rest ih =>
    intro seen
    by_cases hx : x ∈ seen
    · simpa [dedupGo, hx] using ih seen
    · simp only [dedupGo, hx, if_false, List.nodup_cons]
      exact ⟨dedupGo_not_mem_seen rest (x :: seen) x (List.mem_cons_self x seen), ih (x :: seen)⟩

/-- Every element `dedupGo` emits comes from its input list. -/
theorem dedupGo_subset (l : List Str) :
    ∀ (seen : List Str) (e : Str), e ∈ dedupGo seen l → e ∈ l := by
  induction l with
  | nil => simp [dedupGo]
  | cons x rest ih =>
    intro seen e he
    by_cases hx : x ∈ seen
    · simp only [dedupGo, hx, if_true] at he
      exact List.mem_cons_of_mem _ (ih seen e he)
    · simp only [dedupGo, hx, if_false, List.mem_cons] at he
      rcases he with rfl | he
      · exact List.mem_cons_self _ _
      · exact List.mem_cons_of_mem _ (ih (x :: seen) e he)

/-- `_safe_emails` returns a duplicate-free list. -/
theorem safeEmails_nodup (l : List (Option Str)) : (safeEmails l).Nodup :=
  dedupGo_nodup (safeEmailsFilter l) []

/-- Every element of `_safe_emails` contains an "@" and has length at
most 254. -/
theorem safeEmails_valid (l : List (Option Str)) :
    ∀ e ∈ safeEmails l, e.contains '@' = true ∧ e.length ≤ 254 := by
  intro e he
  exact safeEmailsFilter_valid l e (dedupGo_subset (safeEmailsFilter l) [] e he)

/-- Claim C4 (amended): a claimed escalation attempt's recipient list is
the rule's explicit recipients' emails passed through the sanitizer
(strip, must contain "@", length at most 254, de-duplicated preserving
first-seen order); if that list is empty it is the active admin/manager
emails of the tenant passed through the same sanitizer; if both are empty
the attempt's log is finalized `skipped` with a descriptive reason, never
`failed`. -/
theorem escalation_recipients_spec :
    (∀ (env : Env) (rule : NotificationRule) (record : Record),
      (safeEmails (rule.escalationRecipients.map some) ≠ [] →
        escRecipients env rule record = safeEmails (rule.escalationRecipients.map some))
      ∧ (safeEmails (rule.escalationRecipients.map some) = [] →
        escRecipients env rule record = getOrgManagersEmails env.users record.organizationId)
      ∧ getOrgManagersEmails env.users record.organizationId =
          safeEmails ((specFallbackEmails env.users record.organizationId).map some)
      ∧ (escRecipients env rule record).Nodup
      ∧ (∀ e ∈ escRecipients env rule record, e.contains '@' = true ∧ e.length ≤ 254))
    ∧ (∀ (env : Env) (runDate : Int) (rule : NotificationRule) (record : Record) (d : Int)
        (st : RunState),
        hasKey st.logs (record.id, rule.id, NotificationKind.escalation, runDate) = false →
        escRecipients env rule record = [] →
        ∃ l, (attemptStep env runDate rule record NotificationKind.escalation d
            (escRecipients env rule record) noEscMsg (str "Escalation") st).logs
            = st.logs ++ [l]
          ∧ l.status = NotificationStatus.skipped
          ∧ l.errorMessage = noEscMsg
          ∧ l.status ≠ NotificationStatus.failed) := by
  constructor
  · intro env rule record
    refine ⟨?_, ?_, ?_, ?_, ?_⟩
    · intro hne
      simp [escRecipients, List.isEmpty_iff, hne]
    · intro hemp
      simp [escRecipients, List.isEmpty_iff, hemp]
    · simp only [getOrgManagersEmails, specFallbackEmails, List.map_map]
      rfl
    · by_cases hemp : safeEmails (rule.escalationRecipients.map some) = []
      · simp only [escRecipients, List.isEmpty_iff, hemp, if_pos]
        exact safeEmails_nodup _
      · simp only [escRecipients]
        rw [if_neg (by simpa [List.isEmpty_iff] using hemp)]
        exact safeEmails_nodup _
    · intro e he
      by_cases hemp : safeEmails (rule.escalationRecipients.map some) = []
      · simp only [escRecipients, List.isEmpty_iff, hemp, if_pos] at he
        exact safeEmails_valid _ e he
      · simp only [escRecipients] at he
        rw [if_neg (by simpa [List.isEmpty_iff] using hemp)] at he
        exact safeEmails_valid _ e he
  · intro env runDate rule record d st hk hempty
    refine ⟨{ pendingLog record rule NotificationKind.escalation runDate with
        status := NotificationStatus.skipped, errorMessage := noEscMsg }, ?_, rfl, rfl, ?_⟩
    · simp only [attemptStep, hk, Bool.false_eq_true, if_false, hempty,
        List.isEmpty_nil, if_true]
    · simp

/-- Counterexample to C4 as stated: with no explicit recipients and a
single active manager whose stored email is "bob" (non-empty but without
"@"), the claim's fallback list is ["bob"], yet the engine's recipient
list is empty (the fallback is filtered for validity too) and the
escalation log is finalized `skipped` with no recipients. -/
theorem escalation_fallback_counterexample :
    safeEmails (ruleEscOnly.escalationRecipients.map some) = []
    ∧ specFallbackEmails envBob.users rec0.organizationId = [str "bob"]
    ∧ escRecipients envBob ruleEscOnly rec0 = []
    ∧ (runNotificationsForOrg envBob 1 0 []).logs.map
        (fun l => (l.kind, l.status, l.recipients))
        = [(NotificationKind.escalation, NotificationStatus.skipped, [])]
    ∧ [str "bob"] ≠ ([] : List Str) := by decide

/-- Witness for the amended C4: with a valid explicit recipient the
engine uses it; with no source at all the attempt's log is `skipped`. -/
theorem escalation_recipients_spec_witness :
    escRecipients env0 rule0 rec0 = [str "esc@x.com"]
    ∧ (∃ l, (attemptStep envBob 0 ruleEscOnly rec0 NotificationKind.escalation 30
        (escRecipients envBob ruleEscOnly rec0) noEscMsg (str "Escalation")
        (initState [])).logs = (initState []).logs ++ [l]
        ∧ l.status = NotificationStatus.skipped
        ∧ l.errorMessage = noEscMsg
        ∧ l.status ≠ NotificationStatus.failed) := by
  constructor
  · have h := (escalation_recipients_spec.1 env0 rule0 rec0).1 (by decide)
    rw [h]; decide
  · exact escalation_recipients_spec.2 envBob 0 ruleEscOnly rec0 30 (initState [])
      (by decide) (by decide)

/-- The element loop of `clean` succeeds exactly on lists of non-negative
integers. -/
theorem checkOffsets_isSome (l : List PyVal) :
    (checkOffsets l).isSome = l.all isGoodOffset := by
  induction l with
  | nil => rfl
  | cons x rest ih =>
    cases x with
    | pint n =>
      by_cases hn : n < 0
      · have hg : isGoodOffset (PyVal.pint n) = false := by
          simp only [isGoodOffset, decide_eq_false_iff_not]; omega
        simp [checkOffsets, hn, List.all_cons, hg]
      · have hg : isGoodOffset (PyVal.pint n) = true := by
          simp only [isGoodOffset, decide_eq_true_eq]; omega
        simp only [checkOffsets, List.all_cons, hg, Bool.true_and]
        rw [if_neg hn, ← ih]
        cases checkOffsets rest <;> rfl
    | pother t => simp [checkOffsets, List.all_cons, isGoodOffset]

/-- The element loop of `clean` rejects exactly the lists containing an
element that is not a non-negative integer. -/
theorem checkOffsets_none_iff (l : List PyVal) :
    checkOffsets l = none ↔ l.all isGoodOffset = false := by
  rw [← checkOffsets_isSome]
  cases checkOffsets l <;> simp

/-- On success, the element loop of `clean` returns exactly the integer
values of the list, all non-negative. -/
theorem checkOffsets_some (l : List PyVal) (m : List Int) (h : checkOffsets l = some m) :
    (∀ n : Int, n ∈ m ↔ PyVal.pint n ∈ l) ∧ (∀ n ∈ m, 0 ≤ n) := by
  induction l generalizing m with
  | nil =>
    simp only [checkOffsets, Option.some_inj] at h
    subst h; simp
  | cons x rest ih =>
    cases x with
    | pint k =>
      by_cases hk : k < 0
      · simp [checkOffsets, hk] at h
      · simp only [checkOffsets, hk, if_false] at h
        cases hc : checkOffsets rest with
        | none => rw [hc] at h; simp at h
        | some m' =>
          rw [hc] at h
          simp only [Option.map_some', Option.some_inj] at h
          subst h
          obtain ⟨hmem, hpos⟩ := ih m' hc
          constructor
          · intro n
            simp only [List.mem_cons, hmem n]
            constructor
            · rintro (rfl | hn)
              · exact Or.inl rfl
              · exact Or.inr hn
            · rintro (he | hn)
              · exact Or.inl (by injection he)
              · exact Or.inr hn
          · intro n hn
            rcases List.mem_cons.mp hn with rfl | hn
            · omega
            · exact hpos n hn
    | pother t => simp [checkOffsets] at h

/-- Membership in `insertDesc`. -/
theorem insertDesc_mem (x : Int) (l : List Int) (a : Int) :
    a ∈ insertDesc x l ↔ a = x ∨ a ∈ l := by
  induction l with
  | nil => simp [insertDesc]
  | cons y ys ih =>
    by_cases h1 : y < x
    · simp only [insertDesc]
      rw [if_pos h1]
      simp [List.mem_cons]
    · by_cases h2 : x = y
      · simp only [insertDesc]
        rw [if_neg h1, if_pos h2]
        subst h2
        simp only [List.mem_cons]
        tauto
      · simp only [insertDesc]
        rw [if_neg h1, if_neg h2, List.mem_cons, List.mem_cons, ih]
        tauto

/-- `insertDesc` preserves strict descending order. -/
theorem insertDesc_pairwise (x : Int) (l : List Int)
    (h : l.Pairwise (fun a b => b < a)) :
    (insertDesc x l).Pairwise (fun a b => b < a) := by
  induction l with
  | nil => simp [insertDesc]
  | cons y ys ih =>
    rw [List.pairwise_cons] at h
    obtain ⟨hy, hys⟩ := h
    by_cases h1 : y < x
    · simp only [insertDesc]
      rw [if_pos h1, List.pairwise_cons]
      refine ⟨?_, List.pairwise_cons.mpr ⟨hy, hys⟩⟩
      intro b hb
      rcases List.mem_cons.mp hb with rfl | hb
      · exact h1
      · exact lt_trans (hy b hb) h1
    · by_cases h2 : x = y
      · simp only [insertDesc]
        rw [if_neg h1, if_pos h2]
        exact List.pairwise_cons.mpr ⟨hy, hys⟩
      · simp only [insertDesc]
        rw [if_neg h1, if_neg h2, List.pairwise_cons]
        refine ⟨?_, ih hys⟩
        intro b hb
        rcases (insertDesc_mem x ys b).mp hb with rfl | hb
        · omega
        · exact hy b hb

/-- `sorted(set(l), reverse=True)` keeps exactly the members of `l`. -/
theorem sortedDescSet_mem (l : List Int) (a : Int) :
    a ∈ sortedDescSet l ↔ a ∈ l := by
  induction l with
  | nil => simp [sortedDescSet]
  | cons x xs ih =>
    simp only [sortedDescSet, List.foldr_cons] at ih ⊢
    rw [insertDesc_mem, ih, List.mem_cons]

/-- `sorted(set(l), reverse=True)` is strictly descending. -/
theorem sortedDescSet_pairwise (l : List Int) :
    (sortedDescSet l).Pairwise (fun a b => b < a) := by
  induction l with
  | nil => simp [sortedDescSet]
  | cons x xs ih =>
    simpa only [sortedDescSet, List.foldr_cons] using insertDesc_pairwise x _ ih

/-- Claim C6: `clean` rejects any offsets list containing an element that
is not a non-negative integer (for both the reminder and the escalation
list), rejects a non-applies-to-all rule with neither dimension set, and
otherwise normalizes both lists to de-duplicated, strictly descending
sequences holding exactly the original integer members. -/
theorem rule_clean_spec : ∀ f : RuleForm,
    (f.offsetsDays.all isGoodOffset = false → ruleClean f = none)
    ∧ (f.escalateOffsetsDays.all isGoodOffset = false → ruleClean f = none)
    ∧ (f.appliesToAll = false → optTruthy f.recordType = false →
        optTruthy f.category = false → ruleClean f = none)
    ∧ (∀ offs escOffs, ruleClean f = some (offs, escOffs) →
        (offs.Pairwise (fun a b => b < a) ∧ offs.Nodup
          ∧ (∀ n : Int, n ∈ offs ↔ PyVal.pint n ∈ f.offsetsDays) ∧ (∀ n ∈ offs, 0 ≤ n))
        ∧ (escOffs.Pairwise (fun a b => b < a) ∧ escOffs.Nodup
          ∧ (∀ n : Int, n ∈ escOffs ↔ PyVal.pint n ∈ f.escalateOffsetsDays)
          ∧ (∀ n ∈ escOffs, 0 ≤ n))
        ∧ (f.appliesToAll = true ∨ optTruthy f.recordType = true
            ∨ optTruthy f.category = true)) := by
  intro f
  refine ⟨?_, ?_, ?_, ?_⟩
  · intro hbad
    have hn : checkOffsets f.offsetsDays = none := (checkOffsets_none_iff _).mpr hbad
    unfold ruleClean cleanOffsets
    rw [hn]
    rfl
  · intro hbad
    have hn : checkOffsets f.escalateOffsetsDays = none := (checkOffsets_none_iff _).mpr hbad
    cases hc : checkOffsets f.offsetsDays with
    | none =>
      unfold ruleClean cleanOffsets
      rw [hc]
      rfl
    | some m =>
      unfold ruleClean cleanOffsets
      rw [hc, hn]
      simp only [Option.map_some', Option.map_none']
      split <;> rfl
  · intro ha h1 h2
    cases hc : checkOffsets f.offsetsDays with
    | none =>
      unfold ruleClean cleanOffsets
      rw [hc]
      rfl
    | some m =>
      unfold ruleClean cleanOffsets
      rw [hc]
      simp only [Option.map_some']
      rw [if_pos (by simp [ha, h1, h2])]
  · intro offs escOffs h
    cases hc : checkOffsets f.offsetsDays with
    | none =>
      unfold ruleClean cleanOffsets at h
      rw [hc] at h
      exact absurd h (by simp)
    | some m =>
      unfold ruleClean cleanOffsets at h
      rw [hc] at h
      simp only [Option.map_some'] at h
      by_cases hscope : (!f.appliesToAll && !(optTruthy f.recordType || optTruthy f.category)) = true
      · rw [if_pos hscope] at h; exact absurd h (by simp)
      · rw [if_neg hscope] at h
        cases he : checkOffsets f.escalateOffsetsDays with
        | none => rw [he] at h; exact absurd h (by simp)
        | some me =>
          rw [he] at h
          simp only [Option.map_some', Option.some_inj, Prod.mk.injEq] at h
          obtain ⟨ho, hes⟩ := h
          subst ho; subst hes
          obtain ⟨hm1, hm2⟩ := checkOffsets_some _ _ hc
          obtain ⟨he1, he2⟩ := checkOffsets_some _ _ he
          refine ⟨⟨sortedDescSet_pairwise m, ?_, ?_, ?_⟩,
                  ⟨sortedDescSet_pairwise me, ?_, ?_, ?_⟩, ?_⟩
          · exact (sortedDescSet_pairwise m).imp (fun h => ne_of_gt h)
          · intro n; rw [sortedDescSet_mem]; exact hm1 n
          · intro n hn; exact hm2 n ((sortedDescSet_mem m n).mp hn)
          · exact (sortedDescSet_pairwise me).imp (fun h => ne_of_gt h)
          · intro n; rw [sortedDescSet_mem]; exact he1 n
          · intro n hn; exact he2 n ((sortedDescSet_mem me n).mp hn)
          · by_cases hA : f.appliesToAll = true
            · exact Or.inl hA
            · have hA' : f.appliesToAll = false := Bool.eq_false_iff.mpr hA
              cases hr : optTruthy f.recordType with
              | true => exact Or.inr (Or.inl rfl)
              | false =>
                cases hcat : optTruthy f.category with
                | true => exact Or.inr (Or.inr rfl)
                | false => exact absurd (by simp [hA', hr, hcat]) hscope

/-- Witness for C6: a list containing a negative number is rejected; a
list with a string element is rejected; a scope-less non-global rule is
rejected; a valid rule's offsets are normalized to descending order. -/
theorem rule_clean_spec_witness :
    ruleClean
      { appliesToAll := true, recordType := none, category := none,
        offsetsDays := [PyVal.pint 7, PyVal.pint (-3)], escalateOffsetsDays := [] } = none
    ∧ ruleClean
      { appliesToAll := true, recordType := none, category := none,
        offsetsDays := [], escalateOffsetsDays := [PyVal.pother (str "x")] } = none
    ∧ ruleClean
      { appliesToAll := false, recordType := none, category := some [],
        offsetsDays := [], escalateOffsetsDays := [] } = none
    ∧ (∀ offs escOffs,
        ruleClean
          { appliesToAll := true, recordType := none, category := none,
            offsetsDays := [PyVal.pint 7, PyVal.pint 30, PyVal.pint 7],
            escalateOffsetsDays := [] } = some (offs, escOffs) →
        offs.Pairwise (fun a b => b < a) ∧ offs.Nodup
          ∧ (∀ n : Int, n ∈ offs ↔
              PyVal.pint n ∈ [PyVal.pint 7, PyVal.pint 30, PyVal.pint 7])) := by
  refine ⟨(rule_clean_spec _).1 (by decide), (rule_clean_spec _).2.1 (by decide),
    (rule_clean_spec _).2.2.1 rfl rfl rfl, ?_⟩
  intro offs escOffs h
  have hr := (rule_clean_spec _).2.2.2 offs escOffs h
  exact ⟨hr.1.1, hr.1.2.1, hr.1.2.2.1⟩

/-- Witness for C9: a 6000-character error is stored as its first 5000
characters; a short error is stored unchanged. -/
theorem mark_failed_truncation_witness :
    (markFailed (pendingLog rec0 rule0 NotificationKind.reminder 0)
      (List.replicate 6000 'x')).errorMessage = List.replicate 5000 'x'
    ∧ (markFailed (pendingLog rec0 rule0 NotificationKind.reminder 0)
      (str "boom")).errorMessage = str "boom" := by
  constructor
  · have h := (mark_failed_truncation (pendingLog rec0 rule0 NotificationKind.reminder 0)
      (List.replicate 6000 'x')).2.1
    rw [h, List.take_replicate]
    norm_num
  · exact (mark_failed_truncation (pendingLog rec0 rule0 NotificationKind.reminder 0)
      (str "boom")).2.2.2 (by decide)

end LMS

namespace LMS

/-- A key is claimed exactly when some stored row carries it. -/
theorem hasKey_iff (logs : List LogEntry) (k : LogKey) :
    hasKey logs k = true ↔ k ∈ logs.map logKey := by
  simp only [hasKey, List.any_eq_true, decide_eq_true_eq, List.mem_map]

/-- Every attempt appends exactly its identity to the attempt trace. -/
theorem attemptStep_attempts (env : Env) (runDate : Int) (rule : NotificationRule)
    (record : Record) (kind : NotificationKind) (d : Int) (toEmails : List Str)
    (msg lbl : Str) (st : RunState) :
    (attemptStep env runDate rule record kind d toEmails msg lbl st).attempts
      = st.attempts ++ [(record.id, rule.id, kind)] := by
  unfold attemptStep
  split
  · rfl
  · split
    · rfl
    · split <;> rfl

/-- An attempt whose key is already claimed only counts one skip. -/
theorem attemptStep_claimed (env : Env) (runDate : Int) (rule : NotificationRule)
    (record : Record) (kind : NotificationKind) (d : Int) (toEmails : List Str)
    (msg lbl : Str) (st : RunState)
    (h : hasKey st.logs (record.id, rule.id, kind, runDate) = true) :
    attemptStep env runDate rule record kind d toEmails msg lbl st
      = { st with
          attempts := st.attempts ++ [(record.id, rule.id, kind)]
          skipped := st.skipped + 1
          claimSkips := st.claimSkips + 1 } := by
  unfold attemptStep
  rw [if_pos h]

/-- The uniqueness key of the finalized row of an attempt. -/
theorem finalizedLog_key (env : Env) (runDate : Int) (rule : NotificationRule)
    (record : Record) (kind : NotificationKind) (d : Int) (toEmails : List Str)
    (msg lbl : Str) :
    logKey (finalizedLog env runDate rule record kind d toEmails msg lbl)
      = (record.id, rule.id, kind, runDate) := by
  unfold finalizedLog
  split
  · rfl
  · split <;> rfl

/-- The attempt identity of the finalized row of an attempt. -/
theorem finalizedLog_aid (env : Env) (runDate : Int) (rule : NotificationRule)
    (record : Record) (kind : NotificationKind) (d : Int) (toEmails : List Str)
    (msg lbl : Str) :
    logAid (finalizedLog env runDate rule record kind d toEmails msg lbl)
      = (record.id, rule.id, kind) := by
  unfold finalizedLog
  split
  · rfl
  · split <;> rfl

/-- A finalized row is never left `pending`. -/
theorem finalizedLog_not_pending (env : Env) (runDate : Int) (rule : NotificationRule)
    (record : Record) (kind : NotificationKind) (d : Int) (toEmails : List Str)
    (msg lbl : Str) :
    (finalizedLog env runDate rule record kind d toEmails msg lbl).status
      ≠ NotificationStatus.pending := by
  unfold finalizedLog
  split
  · simp
  · split <;> simp [markSent, markFailed]

/-- With no recipients the finalized row is `skipped`. -/
theorem finalizedLog_status_empty (env : Env) (runDate : Int) (rule : NotificationRule)
    (record : Record) (kind : NotificationKind) (d : Int) (msg lbl : Str) :
    (finalizedLog env runDate rule record kind d [] msg lbl).status
      = NotificationStatus.skipped := rfl

/-- With recipients the finalized row is `sent` or `failed`. -/
theorem finalizedLog_status_nonempty (env : Env) (runDate : Int) (rule : NotificationRule)
    (record : Record) (kind : NotificationKind) (d : Int) (toEmails : List Str)
    (msg lbl : Str) (h : toEmails.isEmpty = false) :
    (finalizedLog env runDate rule record kind d toEmails msg lbl).status
      = NotificationStatus.sent
    ∨ (finalizedLog env runDate rule record kind d toEmails msg lbl).status
      = NotificationStatus.failed := by
  unfold finalizedLog
  rw [if_neg (by simp [h])]
  split <;> simp [markSent, markFailed]

/-- A status other than `pending` counts exactly once among sent, failed
and skipped. -/
theorem statusInc_one (s : NotificationStatus) (h : s ≠ NotificationStatus.pending) :
    (if s = NotificationStatus.sent then 1 else 0)
      + (if s = NotificationStatus.failed then 1 else 0)
      + (if s = NotificationStatus.skipped then 1 else 0) = 1 := by
  cases s with
  | pending => exact absurd rfl h
  | sent => simp
  | failed => simp
  | skipped => simp

/-- A non-claimed attempt appends its finalized row and bumps `created`
plus exactly the counter of the row's final status. -/
theorem attemptStep_not_claimed (env : Env) (runDate : Int) (rule : NotificationRule)
    (record : Record) (kind : NotificationKind) (d : Int) (toEmails : List Str)
    (msg lbl : Str) (st : RunState)
    (h : hasKey st.logs (record.id, rule.id, kind, runDate) = false) :
    attemptStep env runDate rule record kind d toEmails msg lbl st
      = { st with
          attempts := st.attempts ++ [(record.id, rule.id, kind)]
          logs := st.logs ++ [finalizedLog env runDate rule record kind d toEmails msg lbl]
          created := st.created + 1
          sent := st.sent +
            (if (finalizedLog env runDate rule record kind d toEmails msg lbl).status
              = NotificationStatus.sent then 1 else 0)
          failed := st.failed +
            (if (finalizedLog env runDate rule record kind d toEmails msg lbl).status
              = NotificationStatus.failed then 1 else 0)
          skipped := st.skipped +
            (if (finalizedLog env runDate rule record kind d toEmails msg lbl).status
              = NotificationStatus.skipped then 1 else 0) } := by
  have hne : ¬(hasKey st.logs (record.id, rule.id, kind, runDate) = true) := by simp [h]
  by_cases he : toEmails.isEmpty
  · unfold attemptStep finalizedLog
    rw [if_neg hne]
    rw [if_pos he, if_pos he]
    simp
  · cases hd : env.dispatch record.id rule.id kind (fromAddress env.settings) toEmails
        (renderSubject rule record lbl d) (renderBody rule record lbl d) with
    | ok u =>
      unfold attemptStep finalizedLog
      rw [if_neg hne, if_neg he, if_neg he]
      rw [hd]
      simp [markSent]
    | error e =>
      unfold attemptStep finalizedLog
      rw [if_neg hne, if_neg he, if_neg he]
      rw [hd]
      simp [markFailed]

end LMS

namespace LMS

/-- One (rule, record) pair appends exactly its due attempts to the trace. -/
theorem processPair_attempts (env : Env) (runDate : Int) (rule : NotificationRule)
    (st : RunState) (record : Record) :
    (processPair env runDate rule st record).attempts
      = st.attempts ++ specDueAttempts runDate rule record := by
  unfold processPair specDueAttempts
  cases hexp : record.expiryDate with
  | none => simp
  | some exp =>
    by_cases hm : matchesRecord rule record
    · by_cases hrem : (exp - runDate) ∈ rule.offsetsDays <;>
      by_cases hescE : rule.escalateEnabled <;>
      by_cases hescC : (exp - runDate) ∈ rule.escalateOffsetsDays <;>
      by_cases hren : record.status = RecordStatus.renewed <;>
      by_cases harch : record.status = RecordStatus.archived <;>
      simp [hm, hrem, hescE, hescC, hren, harch, reminderPhase, escalationPhase,
        attemptStep_attempts, List.append_assoc]
    · simp [hm]

/-- Folding one rule over a record list appends exactly the concatenated
due attempts. -/
theorem foldl_processPair_attempts (env : Env) (runDate : Int) (rule : NotificationRule)
    (records : List Record) (st : RunState) :
    (records.foldl (processPair env runDate rule) st).attempts
      = st.attempts ++ records.flatMap (specDueAttempts runDate rule) := by
  induction records generalizing st with
  | nil => simp
  | cons r rs ih =>
    simp only [List.foldl_cons, List.flatMap_cons]
    rw [ih, processPair_attempts, List.append_assoc]

/-- Folding the rule loop appends exactly the concatenated due attempts. -/
theorem foldl_rules_attempts (env : Env) (orgId : Nat) (runDate : Int)
    (rules : List NotificationRule) (st : RunState) :
    (rules.foldl
        (fun acc rule => (activeRecords env orgId).foldl (processPair env runDate rule) acc)
        st).attempts
      = st.attempts
        ++ rules.flatMap
            (fun rule => (activeRecords env orgId).flatMap (specDueAttempts runDate rule)) := by
  induction rules generalizing st with
  | nil => simp
  | cons r rs ih =>
    simp only [List.foldl_cons, List.flatMap_cons]
    rw [ih, foldl_processPair_attempts, List.append_assoc]

/-- The attempts of a whole sweep are exactly `specRunAttempts`. -/
theorem run_attempts (env : Env) (orgId : Nat) (runDate : Int) (logs0 : List LogEntry) :
    (runNotificationsForOrg env orgId runDate logs0).attempts
      = specRunAttempts env orgId runDate := by
  unfold runNotificationsForOrg specRunAttempts
  rw [foldl_rules_attempts]
  rfl

/-- Claim C2 (amended): a sweep's attempt trace is exactly one attempt
per due (rule, record, kind): for each enabled rule and each non-archived
record of the tenant with an expiry date and a matching scope, a reminder
attempt is made iff `days_left = expiry - run_date` is in the rule's
reminder offsets, and an escalation attempt is made iff escalation is
enabled, `days_left` is in the escalation offsets, and the record's
status is neither renewed nor archived; reminder and escalation are
evaluated independently for the same pair. -/
theorem trigger_evaluation_spec : ∀ (env : Env) (orgId : Nat) (runDate : Int)
    (logs0 : List LogEntry),
    (runNotificationsForOrg env orgId runDate logs0).attempts
      = specRunAttempts env orgId runDate
    ∧ (∀ (rule : NotificationRule) (record : Record) (exp : Int),
        record.expiryDate = some exp → matchesRecord rule record = true →
        (((record.id, rule.id, NotificationKind.reminder)
            ∈ specDueAttempts runDate rule record) ↔ (exp - runDate) ∈ rule.offsetsDays)
        ∧ (((record.id, rule.id, NotificationKind.escalation)
            ∈ specDueAttempts runDate rule record) ↔
            (rule.escalateEnabled = true ∧ (exp - runDate) ∈ rule.escalateOffsetsDays
              ∧ record.status ≠ RecordStatus.renewed
              ∧ record.status ≠ RecordStatus.archived))) := by
  intro env orgId runDate logs0
  constructor
  · exact run_attempts env orgId runDate logs0
  · intro rule record exp hexp hm
    constructor
    · unfold specDueAttempts
      rw [hexp]
      simp [hm]
    · unfold specDueAttempts
      rw [hexp]
      by_cases hescE : rule.escalateEnabled <;>
      by_cases hescC : (exp - runDate) ∈ rule.escalateOffsetsDays <;>
      by_cases hren : record.status = RecordStatus.renewed <;>
      by_cases harch : record.status = RecordStatus.archived <;>
      simp [hm, hescE, hescC, hren, harch]

end LMS

namespace LMS

/-- Counterexample to C2 as stated: an archived record with a non-null
expiry date whose `days_left` is in an enabled matching rule's reminder
offsets gets NO reminder attempt — the sweep's record queryset excludes
archived records outright, so the stated "reminder attempt iff days_left
in offsets" fails for archived records. -/
theorem reminder_archived_counterexample :
    recArchived.expiryDate = some 30
    ∧ rule0.enabled = true
    ∧ matchesRecord rule0 recArchived = true
    ∧ ((30 : Int) - 0) ∈ rule0.offsetsDays
    ∧ (runNotificationsForOrg envArchived 1 0 []).attempts = []
    ∧ ¬((recArchived.id, rule0.id, NotificationKind.reminder)
        ∈ (runNotificationsForOrg envArchived 1 0 []).attempts) := by decide

/-- Witness for the amended C2: a due active record yields its reminder
attempt; a whole concrete run's trace equals the predicted trace. -/
theorem trigger_evaluation_spec_witness :
    (rec0.id, rule0.id, NotificationKind.reminder) ∈ specDueAttempts 0 rule0 rec0
    ∧ (runNotificationsForOrg env0 1 0 []).attempts = specRunAttempts env0 1 0 := by
  constructor
  · exact (((trigger_evaluation_spec env0 1 0 []).2 rule0 rec0 30 rfl (by decide)).1).mpr
      (by decide)
  · exact (trigger_evaluation_spec env0 1 0 []).1

end LMS

namespace LMS

/-- Generic preservation along a fold. -/
theorem foldl_preserves {α : Type} (f : RunState → α → RunState) (P : RunState → Prop)
    (hf : ∀ st a, P st → P (f st a)) : ∀ (l : List α) (st : RunState), P st → P (l.foldl f st) := by
  intro l
  induction l with
  | nil => intro st h; exact h
  | cons a as ih => intro st h; exact ih _ (hf st a h)

/-- A property preserved by every attempt is preserved by the reminder
phase. -/
theorem reminderPhase_preserves (env : Env) (runDate : Int) (P : RunState → Prop)
    (hP : ∀ (rule : NotificationRule) (record : Record) (kind : NotificationKind) (d : Int)
        (toE : List Str) (msg lbl : Str) (st : RunState),
        P st → P (attemptStep env runDate rule record kind d toE msg lbl st))
    (rule : NotificationRule) (record : Record) (d : Int) (st : RunState) (h : P st) :
    P (reminderPhase env runDate rule record d st) := by
  unfold reminderPhase
  split
  · exact hP _ _ _ _ _ _ _ _ h
  · exact h

/-- A property preserved by every attempt is preserved by the escalation
phase. -/
theorem escalationPhase_preserves (env : Env) (runDate : Int) (P : RunState → Prop)
    (hP : ∀ (rule : NotificationRule) (record : Record) (kind : NotificationKind) (d : Int)
        (toE : List Str) (msg lbl : Str) (st : RunState),
        P st → P (attemptStep env runDate rule record kind d toE msg lbl st))
    (rule : NotificationRule) (record : Record) (d : Int) (st : RunState) (h : P st) :
    P (escalationPhase env runDate rule record d st) := by
  unfold escalationPhase
  split
  · split
    · exact h
    · exact hP _ _ _ _ _ _ _ _ h
  · exact h

/-- A property preserved by every attempt is preserved by the whole pair
body. -/
theorem processPair_preserves (env : Env) (runDate : Int) (P : RunState → Prop)
    (hP : ∀ (rule : NotificationRule) (record : Record) (kind : NotificationKind) (d : Int)
        (toE : List Str) (msg lbl : Str) (st : RunState),
        P st → P (attemptStep env runDate rule record kind d toE msg lbl st))
    (rule : NotificationRule) (st : RunState) (record : Record) (h : P st) :
    P (processPair env runDate rule st record) := by
  unfold processPair
  cases hexp : record.expiryDate with
  | none => exact h
  | some exp =>
    dsimp only
    by_cases hm : (!matchesRecord rule record) = true
    · rw [if_pos hm]; exact h
    · rw [if_neg hm]
      exact escalationPhase_preserves env runDate P hP rule record _ _
        (reminderPhase_preserves env runDate P hP rule record _ _ h)

/-- A property preserved by every attempt holds after the whole sweep if
it holds initially. -/
theorem run_preserves (env : Env) (orgId : Nat) (runDate : Int) (P : RunState → Prop)
    (hP : ∀ (rule : NotificationRule) (record : Record) (kind : NotificationKind) (d : Int)
        (toE : List Str) (msg lbl : Str) (st : RunState),
        P st → P (attemptStep env runDate rule record kind d toE msg lbl st))
    (logs0 : List LogEntry) (h0 : P (initState logs0)) :
    P (runNotificationsForOrg env orgId runDate logs0) := by
  unfold runNotificationsForOrg
  exact foldl_preserves _ P
    (fun st rule h => foldl_preserves (processPair env runDate rule) P
      (fun st' record h' => processPair_preserves env runDate P hP rule st' record h')
      (activeRecords env orgId) st h)
    (enabledRules env orgId) (initState logs0) h0

/-- Every attempt preserves the counter identity
created + claim-skips = sent + failed + skipped. -/
theorem attemptStep_counter_inv (env : Env) (runDate : Int) (rule : NotificationRule)
    (record : Record) (kind : NotificationKind) (d : Int) (toE : List Str)
    (msg lbl : Str) (st : RunState)
    (h : st.created + st.claimSkips = st.sent + st.failed + st.skipped) :
    (attemptStep env runDate rule record kind d toE msg lbl st).created
        + (attemptStep env runDate rule record kind d toE msg lbl st).claimSkips
      = (attemptStep env runDate rule record kind d toE msg lbl st).sent
        + (attemptStep env runDate rule record kind d toE msg lbl st).failed
        + (attemptStep env runDate rule record kind d toE msg lbl st).skipped := by
  by_cases hk : hasKey st.logs (record.id, rule.id, kind, runDate) = true
  · rw [attemptStep_claimed env runDate rule record kind d toE msg lbl st hk]
    simp only []
    omega
  · have hkf : hasKey st.logs (record.id, rule.id, kind, runDate) = false :=
      Bool.eq_false_iff.mpr hk
    have h1 := statusInc_one _ (finalizedLog_not_pending env runDate rule record kind d toE msg lbl)
    rw [attemptStep_not_claimed env runDate rule record kind d toE msg lbl st hkf]
    simp only []
    omega

/-- Every attempt extends the log table by finalized rows only. -/
theorem attemptStep_logs_ext (env : Env) (runDate : Int) (rule : NotificationRule)
    (record : Record) (kind : NotificationKind) (d : Int) (toE : List Str)
    (msg lbl : Str) (st : RunState) :
    ∃ suf, (attemptStep env runDate rule record kind d toE msg lbl st).logs = st.logs ++ suf
      ∧ ∀ l ∈ suf, l.status ≠ NotificationStatus.pending := by
  by_cases hk : hasKey st.logs (record.id, rule.id, kind, runDate) = true
  · refine ⟨[], ?_, by simp⟩
    rw [attemptStep_claimed env runDate rule record kind d toE msg lbl st hk]
    simp
  · have hkf : hasKey st.logs (record.id, rule.id, kind, runDate) = false :=
      Bool.eq_false_iff.mpr hk
    refine ⟨[finalizedLog env runDate rule record kind d toE msg lbl], ?_, ?_⟩
    · rw [attemptStep_not_claimed env runDate rule record kind d toE msg lbl st hkf]
    · intro l hl
      rcases List.mem_singleton.mp hl with rfl
      exact finalizedLog_not_pending env runDate rule record kind d toE msg lbl

/-- Claim C10: after a sweep, every log row is a pre-existing row or a
finalized one (`sent`, `failed` or `skipped`, never `pending`), and the
summary counters satisfy created + claim-skips = sent + failed + skipped;
hence created ≤ sent + failed + skipped with equality exactly when no
attempt was skipped because its key was already claimed. -/
theorem run_report_invariants : ∀ (env : Env) (orgId : Nat) (runDate : Int)
    (logs0 : List LogEntry),
    (∀ l ∈ (runNotificationsForOrg env orgId runDate logs0).logs,
        l ∈ logs0 ∨ l.status ≠ NotificationStatus.pending)
    ∧ (runNotificationsForOrg env orgId runDate logs0).created
        + (runNotificationsForOrg env orgId runDate logs0).claimSkips
      = (runNotificationsForOrg env orgId runDate logs0).sent
        + (runNotificationsForOrg env orgId runDate logs0).failed
        + (runNotificationsForOrg env orgId runDate logs0).skipped
    ∧ (runNotificationsForOrg env orgId runDate logs0).created
      ≤ (runNotificationsForOrg env orgId runDate logs0).sent
        + (runNotificationsForOrg env orgId runDate logs0).failed
        + (runNotificationsForOrg env orgId runDate logs0).skipped
    ∧ ((runNotificationsForOrg env orgId runDate logs0).created
        = (runNotificationsForOrg env orgId runDate logs0).sent
          + (runNotificationsForOrg env orgId runDate logs0).failed
          + (runNotificationsForOrg env orgId runDate logs0).skipped
      ↔ (runNotificationsForOrg env orgId runDate logs0).claimSkips = 0) := by
  intro env orgId runDate logs0
  have hlogs : ∃ suf, (runNotificationsForOrg env orgId runDate logs0).logs = logs0 ++ suf
      ∧ ∀ l ∈ suf, l.status ≠ NotificationStatus.pending := by
    refine run_preserves env orgId runDate
      (fun st => ∃ suf, st.logs = logs0 ++ suf ∧ ∀ l ∈ suf, l.status ≠ NotificationStatus.pending)
      ?_ logs0 ⟨[], by simp [initState], by simp⟩
    intro rule record kind d toE msg lbl st ⟨suf, hsuf, hall⟩
    obtain ⟨suf2, hsuf2, hall2⟩ := attemptStep_logs_ext env runDate rule record kind d toE msg lbl st
    refine ⟨suf ++ suf2, by rw [hsuf2, hsuf, List.append_assoc], ?_⟩
    intro l hl
    rcases List.mem_append.mp hl with hl | hl
    · exact hall l hl
    · exact hall2 l hl
  have hcnt : (runNotificationsForOrg env orgId runDate logs0).created
      + (runNotificationsForOrg env orgId runDate logs0).claimSkips
    = (runNotificationsForOrg env orgId runDate logs0).sent
      + (runNotificationsForOrg env orgId runDate logs0).failed
      + (runNotificationsForOrg env orgId runDate logs0).skipped := by
    refine run_preserves env orgId runDate
      (fun st => st.created + st.claimSkips = st.sent + st.failed + st.skipped)
      ?_ logs0 (by simp [initState])
    intro rule record kind d toE msg lbl st h
    exact attemptStep_counter_inv env runDate rule record kind d toE msg lbl st h
  refine ⟨?_, hcnt, by omega, by omega⟩
  obtain ⟨suf, hsuf, hall⟩ := hlogs
  intro l hl
  rw [hsuf] at hl
  rcases List.mem_append.mp hl with hl | hl
  · exact Or.inl hl
  · exact Or.inr (hall l hl)

/-- Witness for C10 at a concrete run. -/
theorem run_report_invariants_witness :
    (∀ l ∈ (runNotificationsForOrg env0 1 0 []).logs,
        l ∈ ([] : List LogEntry) ∨ l.status ≠ NotificationStatus.pending)
    ∧ ((runNotificationsForOrg env0 1 0 []).created
        = (runNotificationsForOrg env0 1 0 []).sent
          + (runNotificationsForOrg env0 1 0 []).failed
          + (runNotificationsForOrg env0 1 0 []).skipped
      ↔ (runNotificationsForOrg env0 1 0 []).claimSkips = 0) :=
  ⟨(run_report_invariants env0 1 0 []).1, (run_report_invariants env0 1 0 []).2.2.2⟩

end LMS

namespace LMS

/-- After an attempt, its uniqueness key is present in the log table. -/
theorem attemptStep_key_present (env : Env) (runDate : Int) (rule : NotificationRule)
    (record : Record) (kind : NotificationKind) (d : Int) (toE : List Str)
    (msg lbl : Str) (st : RunState) :
    ((record.id, rule.id, kind, runDate) : LogKey)
      ∈ (attemptStep env runDate rule record kind d toE msg lbl st).logs.map logKey := by
  by_cases hk : hasKey st.logs (record.id, rule.id, kind, runDate) = true
  · rw [attemptStep_claimed env runDate rule record kind d toE msg lbl st hk]
    exact (hasKey_iff _ _).mp hk
  · rw [attemptStep_not_claimed env runDate rule record kind d toE msg lbl st
      (Bool.eq_false_iff.mpr hk)]
    simp only [List.map_append, List.mem_append]
    right
    simp [finalizedLog_key]

/-- An attempt never removes a key from the log table. -/
theorem attemptStep_keys_mono (env : Env) (runDate : Int) (rule : NotificationRule)
    (record : Record) (kind : NotificationKind) (d : Int) (toE : List Str)
    (msg lbl : Str) (st : RunState) (k : LogKey) (h : k ∈ st.logs.map logKey) :
    k ∈ (attemptStep env runDate rule record kind d toE msg lbl st).logs.map logKey := by
  obtain ⟨suf, hsuf, _⟩ := attemptStep_logs_ext env runDate rule record kind d toE msg lbl st
  rw [hsuf, List.map_append, List.mem_append]
  exact Or.inl h

/-- After processing a pair, the keys of all its due attempts are present. -/
theorem processPair_key_cover (env : Env) (runDate : Int) (rule : NotificationRule)
    (st : RunState) (record : Record) (a : AttemptId)
    (ha : a ∈ specDueAttempts runDate rule record) :
    keyOfAid a runDate ∈ (processPair env runDate rule st record).logs.map logKey := by
  unfold specDueAttempts at ha
  cases hexp : record.expiryDate with
  | none => rw [hexp] at ha; simp at ha
  | some exp =>
    rw [hexp] at ha
    dsimp only at ha
    by_cases hm : matchesRecord rule record
    case neg => simp [hm] at ha
    case pos =>
      rw [if_neg (by simp [hm])] at ha
      unfold processPair
      rw [hexp]
      dsimp only
      rw [if_neg (by simp [hm])]
      rw [List.mem_append] at ha
      rcases ha with ha | ha
      · by_cases hc : rule.offsetsDays.contains (exp - runDate)
        · rw [if_pos hc] at ha
          rcases List.mem_singleton.mp ha with rfl
          have h1 : ((record.id, rule.id, NotificationKind.reminder, runDate) : LogKey)
              ∈ (reminderPhase env runDate rule record (exp - runDate) st).logs.map logKey := by
            unfold reminderPhase
            rw [if_pos hc]
            exact attemptStep_key_present env runDate rule record NotificationKind.reminder
              (exp - runDate) (safeEmails [record.ownerEmail]) noOwnerMsg (str "Reminder") st
          exact escalationPhase_preserves env runDate
            (fun s => ((record.id, rule.id, NotificationKind.reminder, runDate) : LogKey)
              ∈ s.logs.map logKey)
            (fun rule' record' kind' d' toE' msg' lbl' st' h' =>
              attemptStep_keys_mono env runDate rule' record' kind' d' toE' msg' lbl' st' _ h')
            rule record _ _ h1
        · rw [if_neg hc] at ha; simp at ha
      · by_cases hcE : (rule.escalateEnabled && rule.escalateOffsetsDays.contains (exp - runDate)
            && !(decide (record.status = RecordStatus.renewed)
              || decide (record.status = RecordStatus.archived))) = true
        · rw [if_pos hcE] at ha
          rcases List.mem_singleton.mp ha with rfl
          rw [Bool.and_eq_true, Bool.and_eq_true] at hcE
          obtain ⟨⟨hE1, hE2⟩, hE3⟩ := hcE
          unfold escalationPhase
          rw [if_pos (by rw [Bool.and_eq_true]; exact ⟨hE1, hE2⟩)]
          rw [if_neg (by simp only [Bool.not_eq_true'] at hE3; simp [hE3])]
          exact attemptStep_key_present env runDate rule record NotificationKind.escalation
            (exp - runDate) (escRecipients env rule record) noEscMsg (str "Escalation") _
        · rw [if_neg hcE] at ha; simp at ha

/-- After folding a record list, the keys of all due attempts of the
processed records are present. -/
theorem foldl_records_key_cover (env : Env) (runDate : Int) (rule : NotificationRule)
    (records : List Record) (st : RunState) (a : AttemptId)
    (ha : a ∈ records.flatMap (specDueAttempts runDate rule)) :
    keyOfAid a runDate
      ∈ ((records.foldl (processPair env runDate rule) st)).logs.map logKey := by
  induction records generalizing st with
  | nil => simp at ha
  | cons r rs ih =>
    rw [List.flatMap_cons, List.mem_append] at ha
    rw [List.foldl_cons]
    rcases ha with ha | ha
    · refine foldl_preserves (processPair env runDate rule)
        (fun s => keyOfAid a runDate ∈ s.logs.map logKey) ?_ rs _ ?_
      · intro st' record' h'
        exact processPair_preserves env runDate
          (fun s => keyOfAid a runDate ∈ s.logs.map logKey)
          (fun rule' record'' kind' d' toE' msg' lbl' st'' h'' =>
            attemptStep_keys_mono env runDate rule' record'' kind' d' toE' msg' lbl' st'' _ h'')
          rule st' record' h'
      · exact processPair_key_cover env runDate rule st r a ha
    · exact ih _ ha

/-- After folding the rule loop, the keys of all due attempts of the
processed rules are present. -/
theorem foldl_rules_key_cover (env : Env) (orgId : Nat) (runDate : Int)
    (rules : List NotificationRule) (st : RunState) (a : AttemptId)
    (ha : a ∈ rules.flatMap
        (fun rule => (activeRecords env orgId).flatMap (specDueAttempts runDate rule))) :
    keyOfAid a runDate
      ∈ ((rules.foldl
          (fun acc rule => (activeRecords env orgId).foldl (processPair env runDate rule) acc)
          st)).logs.map logKey := by
  induction rules generalizing st with
  | nil => simp at ha
  | cons r rs ih =>
    rw [List.flatMap_cons, List.mem_append] at ha
    rw [List.foldl_cons]
    rcases ha with ha | ha
    · refine foldl_preserves _ (fun s => keyOfAid a runDate ∈ s.logs.map logKey) ?_ rs _ ?_
      · intro st' rule' h'
        exact foldl_preserves (processPair env runDate rule')
          (fun s => keyOfAid a runDate ∈ s.logs.map logKey)
          (fun st'' record'' h'' =>
            processPair_preserves env runDate
              (fun s => keyOfAid a runDate ∈ s.logs.map logKey)
              (fun r' rec' k' d' t' m' l' s' h0 =>
                attemptStep_keys_mono env runDate r' rec' k' d' t' m' l' s' _ h0)
              rule' st'' record'' h'')
          (activeRecords env orgId) st' h'
      · exact foldl_records_key_cover env runDate r (activeRecords env orgId) st a ha
    · exact ih _ ha

/-- After a whole sweep, the keys of all its due attempts are present. -/
theorem run_keys_present (env : Env) (orgId : Nat) (runDate : Int) (logs0 : List LogEntry)
    (a : AttemptId) (ha : a ∈ specRunAttempts env orgId runDate) :
    keyOfAid a runDate
      ∈ (runNotificationsForOrg env orgId runDate logs0).logs.map logKey := by
  unfold specRunAttempts at ha
  unfold runNotificationsForOrg
  exact foldl_rules_key_cover env orgId runDate (enabledRules env orgId) (initState logs0) a ha

end LMS

namespace LMS

/-- When a due reminder's key is already claimed, the reminder phase only
counts a claim-skip. -/
theorem reminderPhase_all_claimed (env : Env) (runDate : Int) (rule : NotificationRule)
    (record : Record) (d : Int) (st : RunState)
    (h : ∀ a ∈ (if rule.offsetsDays.contains d then
        [(record.id, rule.id, NotificationKind.reminder)] else ([] : List AttemptId)),
        keyOfAid a runDate ∈ st.logs.map logKey) :
    reminderPhase env runDate rule record d st
      = { st with
          attempts := st.attempts ++ (if rule.offsetsDays.contains d then
            [(record.id, rule.id, NotificationKind.reminder)] else [])
          skipped := st.skipped + (if rule.offsetsDays.contains d then 1 else 0)
          claimSkips := st.claimSkips + (if rule.offsetsDays.contains d then 1 else 0) } := by
  by_cases hc : rule.offsetsDays.contains d = true
  · have hk : hasKey st.logs (record.id, rule.id, NotificationKind.reminder, runDate) = true :=
      (hasKey_iff _ _).mpr (h (record.id, rule.id, NotificationKind.reminder)
        (by rw [if_pos hc]; exact List.mem_singleton_self _))
    unfold reminderPhase
    rw [if_pos hc,
      attemptStep_claimed env runDate rule record NotificationKind.reminder d
        (safeEmails [record.ownerEmail]) noOwnerMsg (str "Reminder") st hk]
    simp only [if_pos hc]
  · unfold reminderPhase
    rw [if_neg hc]
    simp only [if_neg hc, List.append_nil, Nat.add_zero]

/-- When a due escalation's key is already claimed, the escalation phase
only counts a claim-skip. -/
theorem escalationPhase_all_claimed (env : Env) (runDate : Int) (rule : NotificationRule)
    (record : Record) (d : Int) (st : RunState)
    (h : ∀ a ∈ (if (rule.escalateEnabled && rule.escalateOffsetsDays.contains d
        && !(decide (record.status = RecordStatus.renewed)
          || decide (record.status = RecordStatus.archived))) = true then
        [(record.id, rule.id, NotificationKind.escalation)] else ([] : List AttemptId)),
        keyOfAid a runDate ∈ st.logs.map logKey) :
    escalationPhase env runDate rule record d st
      = { st with
          attempts := st.attempts ++
            (if (rule.escalateEnabled && rule.escalateOffsetsDays.contains d
              && !(decide (record.status = RecordStatus.renewed)
                || decide (record.status = RecordStatus.archived))) = true then
              [(record.id, rule.id, NotificationKind.escalation)] else [])
          skipped := st.skipped +
            (if (rule.escalateEnabled && rule.escalateOffsetsDays.contains d
              && !(decide (record.status = RecordStatus.renewed)
                || decide (record.status = RecordStatus.archived))) = true then 1 else 0)
          claimSkips := st.claimSkips +
            (if (rule.escalateEnabled && rule.escalateOffsetsDays.contains d
              && !(decide (record.status = RecordStatus.renewed)
                || decide (record.status = RecordStatus.archived))) = true then 1 else 0) } := by
  by_cases hE : (rule.escalateEnabled && rule.escalateOffsetsDays.contains d) = true
  · by_cases hstat : (decide (record.status = RecordStatus.renewed)
        || decide (record.status = RecordStatus.archived)) = true
    · have hcomp : (rule.escalateEnabled && rule.escalateOffsetsDays.contains d
          && !(decide (record.status = RecordStatus.renewed)
            || decide (record.status = RecordStatus.archived))) = false := by
        simp [hstat]
      unfold escalationPhase
      rw [if_pos hE, if_pos hstat]
      have hn : ¬((rule.escalateEnabled && rule.escalateOffsetsDays.contains d
          && !(decide (record.status = RecordStatus.renewed)
            || decide (record.status = RecordStatus.archived))) = true) := by
        rw [hcomp]; simp
      simp only [if_neg hn, List.append_nil, Nat.add_zero]
    · have hcomp : (rule.escalateEnabled && rule.escalateOffsetsDays.contains d
          && !(decide (record.status = RecordStatus.renewed)
            || decide (record.status = RecordStatus.archived))) = true := by
        rw [Bool.and_eq_true]
        exact ⟨hE, by simp [Bool.eq_false_iff.mpr hstat]⟩
      have hk : hasKey st.logs (record.id, rule.id, NotificationKind.escalation, runDate) = true :=
        (hasKey_iff _ _).mpr (h (record.id, rule.id, NotificationKind.escalation)
          (by rw [if_pos hcomp]; exact List.mem_singleton_self _))
      unfold escalationPhase
      rw [if_pos hE, if_neg hstat,
        attemptStep_claimed env runDate rule record NotificationKind.escalation d
          (escRecipients env rule record) noEscMsg (str "Escalation") st hk]
      simp only [if_pos hcomp]
  · have hcomp : (rule.escalateEnabled && rule.escalateOffsetsDays.contains d
        && !(decide (record.status = RecordStatus.renewed)
          || decide (record.status = RecordStatus.archived))) = false := by
      rw [Bool.and_eq_false_iff]
      exact Or.inl (Bool.eq_false_iff.mpr hE)
    unfold escalationPhase
    rw [if_neg hE]
    have hn : ¬((rule.escalateEnabled && rule.escalateOffsetsDays.contains d
        && !(decide (record.status = RecordStatus.renewed)
          || decide (record.status = RecordStatus.archived))) = true) := by
      rw [hcomp]; simp
    simp only [if_neg hn, List.append_nil, Nat.add_zero]

/-- When all due keys of a pair are already claimed, processing the pair
only counts claim-skips and leaves the log table unchanged. -/
theorem processPair_all_claimed (env : Env) (runDate : Int) (rule : NotificationRule)
    (st : RunState) (record : Record)
    (h : ∀ a ∈ specDueAttempts runDate rule record, keyOfAid a runDate ∈ st.logs.map logKey) :
    processPair env runDate rule st record
      = { st with
          attempts := st.attempts ++ specDueAttempts runDate rule record
          skipped := st.skipped + (specDueAttempts runDate rule record).length
          claimSkips := st.claimSkips + (specDueAttempts runDate rule record).length } := by
  unfold processPair specDueAttempts
  unfold specDueAttempts at h
  cases hexp : record.expiryDate with
  | none =>
    rw [hexp] at h
    simp
  | some exp =>
    rw [hexp] at h
    dsimp only at h ⊢
    by_cases hm : matchesRecord rule record
    case neg => simp [hm]
    case pos =>
      rw [if_neg (by simp [hm])] at h
      rw [if_neg (by simp [hm])]
      have hR : ∀ a ∈ (if rule.offsetsDays.contains (exp - runDate) then
          [(record.id, rule.id, NotificationKind.reminder)] else ([] : List AttemptId)),
          keyOfAid a runDate ∈ st.logs.map logKey :=
        fun a haa => h a (List.mem_append.mpr (Or.inl haa))
      have hE : ∀ a ∈ (if (rule.escalateEnabled && rule.escalateOffsetsDays.contains (exp - runDate)
          && !(decide (record.status = RecordStatus.renewed)
            || decide (record.status = RecordStatus.archived))) = true then
          [(record.id, rule.id, NotificationKind.escalation)] else ([] : List AttemptId)),
          keyOfAid a runDate ∈ st.logs.map logKey :=
        fun a haa => h a (List.mem_append.mpr (Or.inr haa))
      rw [reminderPhase_all_claimed env runDate rule record (exp - runDate) st hR]
      rw [escalationPhase_all_claimed env runDate rule record (exp - runDate)
        { st with
          attempts := st.attempts ++ (if rule.offsetsDays.contains (exp - runDate) then
            [(record.id, rule.id, NotificationKind.reminder)] else [])
          skipped := st.skipped + (if rule.offsetsDays.contains (exp - runDate) then 1 else 0)
          claimSkips := st.claimSkips
            + (if rule.offsetsDays.contains (exp - runDate) then 1 else 0) }
        hE]
      by_cases hc1 : (exp - runDate) ∈ rule.offsetsDays <;>
      by_cases hE1 : rule.escalateEnabled = true <;>
      by_cases hE2 : (exp - runDate) ∈ rule.escalateOffsetsDays <;>
      by_cases hE3 : record.status = RecordStatus.renewed <;>
      by_cases hE4 : record.status = RecordStatus.archived <;>
      simp [hm, hc1, hE1, hE2, hE3, hE4, List.append_assoc, Nat.add_assoc]

end LMS

namespace LMS

/-- When all due keys of a record list are already claimed, the fold only
counts claim-skips and leaves the log table unchanged. -/
theorem foldl_records_all_claimed (env : Env) (runDate : Int) (rule : NotificationRule)
    (records : List Record) (st : RunState)
    (h : ∀ a ∈ records.flatMap (specDueAttempts runDate rule),
        keyOfAid a runDate ∈ st.logs.map logKey) :
    records.foldl (processPair env runDate rule) st
      = { st with
          attempts := st.attempts ++ records.flatMap (specDueAttempts runDate rule)
          skipped := st.skipped + (records.flatMap (specDueAttempts runDate rule)).length
          claimSkips := st.claimSkips
            + (records.flatMap (specDueAttempts runDate rule)).length } := by
  induction records generalizing st with
  | nil => simp
  | cons r rs ih =>
    rw [List.foldl_cons, List.flatMap_cons]
    rw [processPair_all_claimed env runDate rule st r
      (fun a ha => h a (by rw [List.flatMap_cons, List.mem_append]; exact Or.inl ha))]
    rw [ih { st with
          attempts := st.attempts ++ specDueAttempts runDate rule r
          skipped := st.skipped + (specDueAttempts runDate rule r).length
          claimSkips := st.claimSkips + (specDueAttempts runDate rule r).length }
      (fun a ha => h a (by rw [List.flatMap_cons, List.mem_append]; exact Or.inr ha))]
    simp [List.append_assoc, Nat.add_assoc]

/-- When all due keys of the whole rule loop are already claimed, the fold
only counts claim-skips and leaves the log table unchanged. -/
theorem foldl_rules_all_claimed (env : Env) (orgId : Nat) (runDate : Int)
    (rules : List NotificationRule) (st : RunState)
    (h : ∀ a ∈ rules.flatMap
        (fun rule => (activeRecords env orgId).flatMap (specDueAttempts runDate rule)),
        keyOfAid a runDate ∈ st.logs.map logKey) :
    rules.foldl
        (fun acc rule => (activeRecords env orgId).foldl (processPair env runDate rule) acc) st
      = { st with
          attempts := st.attempts ++ rules.flatMap
            (fun rule => (activeRecords env orgId).flatMap (specDueAttempts runDate rule))
          skipped := st.skipped + (rules.flatMap
            (fun rule => (activeRecords env orgId).flatMap (specDueAttempts runDate rule))).length
          claimSkips := st.claimSkips + (rules.flatMap
            (fun rule =>
              (activeRecords env orgId).flatMap (specDueAttempts runDate rule))).length } := by
  induction rules generalizing st with
  | nil => simp
  | cons r rs ih =>
    rw [List.foldl_cons, List.flatMap_cons]
    rw [foldl_records_all_claimed env runDate r (activeRecords env orgId) st
      (fun a ha => h a (by rw [List.flatMap_cons, List.mem_append]; exact Or.inl ha))]
    rw [ih { st with
          attempts := st.attempts
            ++ (activeRecords env orgId).flatMap (specDueAttempts runDate r)
          skipped := st.skipped
            + ((activeRecords env orgId).flatMap (specDueAttempts runDate r)).length
          claimSkips := st.claimSkips
            + ((activeRecords env orgId).flatMap (specDueAttempts runDate r)).length }
      (fun a ha => h a (by rw [List.flatMap_cons, List.mem_append]; exact Or.inr ha))]
    simp [List.append_assoc, Nat.add_assoc]

/-- A sweep over a log table that already holds every due key creates
nothing: it only counts one claim-skip per due attempt. -/
theorem run_all_claimed (env : Env) (orgId : Nat) (runDate : Int) (L : List LogEntry)
    (h : ∀ a ∈ specRunAttempts env orgId runDate, keyOfAid a runDate ∈ L.map logKey) :
    runNotificationsForOrg env orgId runDate L
      = { initState L with
          attempts := specRunAttempts env orgId runDate
          skipped := (specRunAttempts env orgId runDate).length
          claimSkips := (specRunAttempts env orgId runDate).length } := by
  unfold runNotificationsForOrg
  rw [foldl_rules_all_claimed env orgId runDate (enabledRules env orgId) (initState L)
    (fun a ha => h a ha)]
  simp [initState, specRunAttempts]

/-- An attempt preserves key uniqueness of the log table. -/
theorem attemptStep_keys_nodup (env : Env) (runDate : Int) (rule : NotificationRule)
    (record : Record) (kind : NotificationKind) (d : Int) (toE : List Str)
    (msg lbl : Str) (st : RunState) (h : (st.logs.map logKey).Nodup) :
    ((attemptStep env runDate rule record kind d toE msg lbl st).logs.map logKey).Nodup := by
  by_cases hk : hasKey st.logs (record.id, rule.id, kind, runDate) = true
  · rw [attemptStep_claimed env runDate rule record kind d toE msg lbl st hk]
    exact h
  · have hkf : hasKey st.logs (record.id, rule.id, kind, runDate) = false :=
      Bool.eq_false_iff.mpr hk
    have hnk : ((record.id, rule.id, kind, runDate) : LogKey) ∉ st.logs.map logKey := by
      intro hmem
      exact hk ((hasKey_iff _ _).mpr hmem)
    rw [attemptStep_not_claimed env runDate rule record kind d toE msg lbl st hkf]
    simp only [List.map_append, List.map_cons, List.map_nil, finalizedLog_key]
    rw [List.nodup_append]
    refine ⟨h, by simp, ?_⟩
    intro x hx
    simp only [List.mem_cons, List.not_mem_nil, or_false]
    rintro rfl
    exact hnk hx

/-- Claim C1: running the sweep a second time for the same tenant and date
adds no log row (the already-claimed insert is caught, not crashed),
creates and sends nothing, counts every attempt as skipped-by-claim, and
key uniqueness of the log table is preserved, so at most one row exists
per (record, rule, kind, trigger_date). -/
theorem sweep_idempotent : ∀ (env : Env) (orgId : Nat) (runDate : Int)
    (logs0 : List LogEntry),
    (runNotificationsForOrg env orgId runDate
        (runNotificationsForOrg env orgId runDate logs0).logs).logs
      = (runNotificationsForOrg env orgId runDate logs0).logs
    ∧ (runNotificationsForOrg env orgId runDate
        (runNotificationsForOrg env orgId runDate logs0).logs).created = 0
    ∧ (runNotificationsForOrg env orgId runDate
        (runNotificationsForOrg env orgId runDate logs0).logs).sent = 0
    ∧ (runNotificationsForOrg env orgId runDate
        (runNotificationsForOrg env orgId runDate logs0).logs).failed = 0
    ∧ (runNotificationsForOrg env orgId runDate
        (runNotificationsForOrg env orgId runDate logs0).logs).skipped
      = (runNotificationsForOrg env orgId runDate
          (runNotificationsForOrg env orgId runDate logs0).logs).attempts.length
    ∧ (runNotificationsForOrg env orgId runDate
        (runNotificationsForOrg env orgId runDate logs0).logs).claimSkips
      = (runNotificationsForOrg env orgId runDate
          (runNotificationsForOrg env orgId runDate logs0).logs).skipped
    ∧ (runNotificationsForOrg env orgId runDate
        (runNotificationsForOrg env orgId runDate logs0).logs).attempts
      = (runNotificationsForOrg env orgId runDate logs0).attempts
    ∧ ((logs0.map logKey).Nodup →
        ((runNotificationsForOrg env orgId runDate
          (runNotificationsForOrg env orgId runDate logs0).logs).logs.map logKey).Nodup) := by
  intro env orgId runDate logs0
  have hcov : ∀ a ∈ specRunAttempts env orgId runDate,
      keyOfAid a runDate
        ∈ (runNotificationsForOrg env orgId runDate logs0).logs.map logKey :=
    fun a ha => run_keys_present env orgId runDate logs0 a ha
  have h2 := run_all_claimed env orgId runDate
    (runNotificationsForOrg env orgId runDate logs0).logs hcov
  have hr1nodup : (logs0.map logKey).Nodup →
      ((runNotificationsForOrg env orgId runDate logs0).logs.map logKey).Nodup := by
    intro h0
    exact run_preserves env orgId runDate (fun st => (st.logs.map logKey).Nodup)
      (fun rule record kind d toE msg lbl st hn =>
        attemptStep_keys_nodup env runDate rule record kind d toE msg lbl st hn)
      logs0 h0
  rw [h2]
  refine ⟨rfl, rfl, rfl, rfl, ?_, rfl, ?_, ?_⟩
  · simp [initState]
  · rw [run_attempts]
  · intro h0
    exact hr1nodup h0

/-- Witness for C1 at a concrete double run. -/
theorem sweep_idempotent_witness :
    (runNotificationsForOrg env0 1 0 (runNotificationsForOrg env0 1 0 []).logs).logs
      = (runNotificationsForOrg env0 1 0 []).logs
    ∧ (runNotificationsForOrg env0 1 0 (runNotificationsForOrg env0 1 0 []).logs).created = 0
    ∧ ((runNotificationsForOrg env0 1 0
        (runNotificationsForOrg env0 1 0 []).logs).logs.map logKey).Nodup := by
  have h := sweep_idempotent env0 1 0 []
  exact ⟨h.1, h.2.1, h.2.2.2.2.2.2.2 (by decide)⟩

end LMS

namespace LMS

/-- Log tables with the same key trace agree on claimedness. -/
theorem hasKey_congr (l1 l2 : List LogEntry) (h : l1.map logKey = l2.map logKey) (K : LogKey) :
    hasKey l1 K = hasKey l2 K := by
  have hiff : hasKey l1 K = true ↔ hasKey l2 K = true := by
    rw [hasKey_iff, hasKey_iff, h]
  cases b1 : hasKey l1 K <;> cases b2 : hasKey l2 K <;> simp_all

/-- With no recipients, the finalized row is `skipped` (isEmpty form). -/
theorem finalizedLog_status_isEmpty (env : Env) (runDate : Int) (rule : NotificationRule)
    (record : Record) (kind : NotificationKind) (d : Int) (toE : List Str)
    (msg lbl : Str) (hemp : toE.isEmpty = true) :
    (finalizedLog env runDate rule record kind d toE msg lbl).status
      = NotificationStatus.skipped := by
  unfold finalizedLog
  rw [if_pos hemp]

/-- If the two transports agree on this attempt, the finalized rows are
equal. -/
theorem finalizedLog_dispatch_agree (env : Env)
    (d' : Nat → Nat → NotificationKind → Str → List Str → Str → Str → Except Str Unit)
    (runDate : Int) (rule : NotificationRule) (record : Record) (kind : NotificationKind)
    (d : Int) (toE : List Str) (msg lbl : Str)
    (hag : env.dispatch record.id rule.id kind (fromAddress env.settings) toE
        (renderSubject rule record lbl d) (renderBody rule record lbl d)
      = d' record.id rule.id kind (fromAddress env.settings) toE
        (renderSubject rule record lbl d) (renderBody rule record lbl d)) :
    finalizedLog env runDate rule record kind d toE msg lbl
      = finalizedLog { env with dispatch := d' } runDate rule record kind d toE msg lbl := by
  unfold finalizedLog
  dsimp only
  rw [hag]

/-- One attempt under two transports that agree away from attempt `k`
preserves agreement of everything `k`'s outcome cannot influence. -/
theorem attemptStep_eqExcept (env : Env)
    (d' : Nat → Nat → NotificationKind → Str → List Str → Str → Str → Except Str Unit)
    (k : AttemptId) (runDate : Int) (rule : NotificationRule) (record : Record)
    (kind : NotificationKind) (d : Int) (toE : List Str) (msg lbl : Str)
    (st st' : RunState)
    (hag : ∀ (rid ruleId : Nat) (kind' : NotificationKind) (fr : Str) (toE' : List Str)
        (sub bod : Str), (rid, ruleId, kind') ≠ k →
        env.dispatch rid ruleId kind' fr toE' sub bod = d' rid ruleId kind' fr toE' sub bod)
    (h : eqExcept k st st') :
    eqExcept k (attemptStep env runDate rule record kind d toE msg lbl st)
      (attemptStep { env with dispatch := d' } runDate rule record kind d toE msg lbl st') := by
  obtain ⟨h1, h2, h3, h4, h5, h6⟩ := h
  have hkk : hasKey st.logs (record.id, rule.id, kind, runDate)
      = hasKey st'.logs (record.id, rule.id, kind, runDate) := hasKey_congr _ _ h1 _
  by_cases hk : hasKey st.logs (record.id, rule.id, kind, runDate) = true
  · rw [attemptStep_claimed env runDate rule record kind d toE msg lbl st hk,
      attemptStep_claimed { env with dispatch := d' } runDate rule record kind d toE msg lbl st'
        (by rw [← hkk]; exact hk)]
    exact ⟨h1, h2, h3, by rw [h4], by rw [h5], by rw [h6]⟩
  · have hkf : hasKey st.logs (record.id, rule.id, kind, runDate) = false :=
      Bool.eq_false_iff.mpr hk
    have hkf' : hasKey st'.logs (record.id, rule.id, kind, runDate) = false := by
      rw [← hkk]; exact hkf
    rw [attemptStep_not_claimed env runDate rule record kind d toE msg lbl st hkf,
      attemptStep_not_claimed { env with dispatch := d' } runDate rule record kind d toE msg lbl
        st' hkf']
    by_cases haid : ((record.id, rule.id, kind) : AttemptId) = k
    · have e1 : (!(decide (logAid (finalizedLog env runDate rule record kind d toE msg lbl) = k)))
          = false := by
        rw [finalizedLog_aid]
        simp [haid]
      have e2 : (!(decide (logAid (finalizedLog { env with dispatch := d' } runDate rule record
          kind d toE msg lbl) = k))) = false := by
        rw [finalizedLog_aid]
        simp [haid]
      refine ⟨?_, ?_, by rw [h3], ?_, by rw [h5], by rw [h6]⟩
      · simp only [List.map_append, List.map_cons, List.map_nil, finalizedLog_key, h1]
      · simp only [List.filter_append, h2, List.filter_cons, e1, e2, List.filter_nil,
          Bool.false_eq_true, if_false, List.append_nil]
      · by_cases hemp : toE.isEmpty = true
        · rw [h4, finalizedLog_status_isEmpty env runDate rule record kind d toE msg lbl hemp,
            finalizedLog_status_isEmpty { env with dispatch := d' } runDate rule record kind d
              toE msg lbl hemp]
        · have hne : toE.isEmpty = false := Bool.eq_false_iff.mpr hemp
          have i1 : (if (finalizedLog env runDate rule record kind d toE msg lbl).status
              = NotificationStatus.skipped then 1 else 0) = 0 := by
            rcases finalizedLog_status_nonempty env runDate rule record kind d toE msg lbl hne
              with s | s <;> simp [s]
          have i2 : (if (finalizedLog { env with dispatch := d' } runDate rule record kind d toE
              msg lbl).status = NotificationStatus.skipped then 1 else 0) = 0 := by
            rcases finalizedLog_status_nonempty { env with dispatch := d' } runDate rule record
              kind d toE msg lbl hne with s | s <;> simp [s]
          rw [h4, i1, i2]
    · have hfl : finalizedLog env runDate rule record kind d toE msg lbl
          = finalizedLog { env with dispatch := d' } runDate rule record kind d toE msg lbl :=
        finalizedLog_dispatch_agree env d' runDate rule record kind d toE msg lbl
          (hag record.id rule.id kind _ _ _ _ haid)
      refine ⟨?_, ?_, by rw [h3], ?_, by rw [h5], by rw [h6]⟩
      · simp only [List.map_append, h1, hfl]
      · simp only [List.filter_append, h2, hfl]
      · rw [h4, hfl]

end LMS

namespace LMS

/-- Binary relation preservation along parallel folds. -/
theorem foldl_rel {α : Type} (f g : RunState → α → RunState)
    (R : RunState → RunState → Prop)
    (hfg : ∀ st st' a, R st st' → R (f st a) (g st' a)) :
    ∀ (l : List α) (st st' : RunState), R st st' → R (l.foldl f st) (l.foldl g st') := by
  intro l
  induction l with
  | nil => intro st st' h; exact h
  | cons a as ih => intro st st' h; exact ih _ _ (hfg st st' a h)

/-- The reminder phase under two transports agreeing away from `k`
preserves `eqExcept k`. -/
theorem reminderPhase_eqExcept (env : Env)
    (d' : Nat → Nat → NotificationKind → Str → List Str → Str → Str → Except Str Unit)
    (k : AttemptId) (runDate : Int) (rule : NotificationRule) (record : Record) (d : Int)
    (st st' : RunState)
    (hag : ∀ (rid ruleId : Nat) (kind' : NotificationKind) (fr : Str) (toE' : List Str)
        (sub bod : Str), (rid, ruleId, kind') ≠ k →
        env.dispatch rid ruleId kind' fr toE' sub bod = d' rid ruleId kind' fr toE' sub bod)
    (h : eqExcept k st st') :
    eqExcept k (reminderPhase env runDate rule record d st)
      (reminderPhase { env with dispatch := d' } runDate rule record d st') := by
  unfold reminderPhase
  by_cases hc : rule.offsetsDays.contains d = true
  · rw [if_pos hc, if_pos hc]
    exact attemptStep_eqExcept env d' k runDate rule record NotificationKind.reminder d
      (safeEmails [record.ownerEmail]) noOwnerMsg (str "Reminder") st st' hag h
  · rw [if_neg hc, if_neg hc]
    exact h

/-- The escalation phase under two transports agreeing away from `k`
preserves `eqExcept k`. -/
theorem escalationPhase_eqExcept (env : Env)
    (d' : Nat → Nat → NotificationKind → Str → List Str → Str → Str → Except Str Unit)
    (k : AttemptId) (runDate : Int) (rule : NotificationRule) (record : Record) (d : Int)
    (st st' : RunState)
    (hag : ∀ (rid ruleId : Nat) (kind' : NotificationKind) (fr : Str) (toE' : List Str)
        (sub bod : Str), (rid, ruleId, kind') ≠ k →
        env.dispatch rid ruleId kind' fr toE' sub bod = d' rid ruleId kind' fr toE' sub bod)
    (h : eqExcept k st st') :
    eqExcept k (escalationPhase env runDate rule record d st)
      (escalationPhase { env with dispatch := d' } runDate rule record d st') := by
  unfold escalationPhase
  by_cases hc : (rule.escalateEnabled && rule.escalateOffsetsDays.contains d) = true
  · rw [if_pos hc, if_pos hc]
    by_cases hstat : (decide (record.status = RecordStatus.renewed)
        || decide (record.status = RecordStatus.archived)) = true
    · rw [if_pos hstat, if_pos hstat]
      exact h
    · rw [if_neg hstat, if_neg hstat]
      have hrec : escRecipients { env with dispatch := d' } rule record
          = escRecipients env rule record := rfl
      rw [hrec]
      exact attemptStep_eqExcept env d' k runDate rule record NotificationKind.escalation d
        (escRecipients env rule record) noEscMsg (str "Escalation") st st' hag h
  · rw [if_neg hc, if_neg hc]
    exact h

/-- One pair under two transports agreeing away from `k` preserves
`eqExcept k`. -/
theorem processPair_eqExcept (env : Env)
    (d' : Nat → Nat → NotificationKind → Str → List Str → Str → Str → Except Str Unit)
    (k : AttemptId) (runDate : Int) (rule : NotificationRule) (record : Record)
    (st st' : RunState)
    (hag : ∀ (rid ruleId : Nat) (kind' : NotificationKind) (fr : Str) (toE' : List Str)
        (sub bod : Str), (rid, ruleId, kind') ≠ k →
        env.dispatch rid ruleId kind' fr toE' sub bod = d' rid ruleId kind' fr toE' sub bod)
    (h : eqExcept k st st') :
    eqExcept k (processPair env runDate rule st record)
      (processPair { env with dispatch := d' } runDate rule st' record) := by
  unfold processPair
  cases hexp : record.expiryDate with
  | none => exact h
  | some exp =>
    dsimp only
    by_cases hm : (!matchesRecord rule record) = true
    · rw [if_pos hm, if_pos hm]
      exact h
    · rw [if_neg hm, if_neg hm]
      exact escalationPhase_eqExcept env d' k runDate rule record (exp - runDate) _ _ hag
        (reminderPhase_eqExcept env d' k runDate rule record (exp - runDate) st st' hag h)

/-- Claim C5: (isolation) changing only the transport's outcome of one
attempt `k` changes nothing a different attempt can observe — the run
completes with the same key trace, the same log rows for every other
attempt, and the same created / skipped / claim-skip counters and attempt
trace; and (failure handling) when the dispatch of a claimed attempt with
recipients raises, that attempt's row is appended finalized `failed` with
the truncated error text and only the failed counter is bumped. -/
theorem dispatch_failure_isolation :
    (∀ (env : Env)
      (d' : Nat → Nat → NotificationKind → Str → List Str → Str → Str → Except Str Unit)
      (k : AttemptId) (orgId : Nat) (runDate : Int) (logs0 : List LogEntry),
      (∀ (rid ruleId : Nat) (kind' : NotificationKind) (fr : Str) (toE' : List Str)
        (sub bod : Str), (rid, ruleId, kind') ≠ k →
        env.dispatch rid ruleId kind' fr toE' sub bod = d' rid ruleId kind' fr toE' sub bod) →
      eqExcept k (runNotificationsForOrg env orgId runDate logs0)
        (runNotificationsForOrg { env with dispatch := d' } orgId runDate logs0))
    ∧ (∀ (env : Env) (runDate : Int) (rule : NotificationRule) (record : Record)
        (kind : NotificationKind) (d : Int) (toE : List Str) (msg lbl : Str)
        (st : RunState) (e : Str),
        hasKey st.logs (record.id, rule.id, kind, runDate) = false →
        toE.isEmpty = false →
        env.dispatch record.id rule.id kind (fromAddress env.settings) toE
          (renderSubject rule record lbl d) (renderBody rule record lbl d) = Except.error e →
        (attemptStep env runDate rule record kind d toE msg lbl st).logs
          = st.logs ++ [markFailed (pendingLog record rule kind runDate) e]
        ∧ (attemptStep env runDate rule record kind d toE msg lbl st).failed = st.failed + 1
        ∧ (attemptStep env runDate rule record kind d toE msg lbl st).sent = st.sent
        ∧ (attemptStep env runDate rule record kind d toE msg lbl st).created = st.created + 1
        ∧ (markFailed (pendingLog record rule kind runDate) e).status = NotificationStatus.failed
        ∧ (markFailed (pendingLog record rule kind runDate) e).errorMessage = e.take 5000) := by
  constructor
  · intro env d' k orgId runDate logs0 hag
    unfold runNotificationsForOrg
    have hrules : enabledRules { env with dispatch := d' } orgId = enabledRules env orgId := rfl
    have hrecs : activeRecords { env with dispatch := d' } orgId = activeRecords env orgId := rfl
    rw [hrules, hrecs]
    exact foldl_rel _ _ (eqExcept k)
      (fun st st' rule h =>
        foldl_rel _ _ (eqExcept k)
          (fun st2 st2' record h2 =>
            processPair_eqExcept env d' k runDate rule record st2 st2' hag h2)
          (activeRecords env orgId) st st' h)
      (enabledRules env orgId) (initState logs0) (initState logs0)
      ⟨rfl, rfl, rfl, rfl, rfl, rfl⟩
  · intro env runDate rule record kind d toE msg lbl st e hk hne hd
    have hkne : ¬(hasKey st.logs (record.id, rule.id, kind, runDate) = true) := by simp [hk]
    have hnee : ¬(toE.isEmpty = true) := by simp [hne]
    unfold attemptStep
    rw [if_neg hkne, if_neg hnee, hd]
    exact ⟨rfl, rfl, rfl, rfl, rfl, rfl⟩

/-- Witness for C5: under a transport failing exactly at
(record 1, rule 1, reminder), the double-run environments agree on all
other rows, and the failing attempt's row is `failed` with the error
text. -/
theorem dispatch_failure_isolation_witness :
    eqExcept (1, 1, NotificationKind.reminder)
      (runNotificationsForOrg env0 1 0 [])
      (runNotificationsForOrg { env0 with dispatch := failDispatch } 1 0 [])
    ∧ (attemptStep { env0 with dispatch := failDispatch } 0 rule0 rec0
        NotificationKind.reminder 30 (safeEmails [rec0.ownerEmail]) noOwnerMsg
        (str "Reminder") (initState [])).logs
      = (initState []).logs
        ++ [markFailed (pendingLog rec0 rule0 NotificationKind.reminder 0) (str "boom")] := by
  constructor
  · exact dispatch_failure_isolation.1 env0 failDispatch (1, 1, NotificationKind.reminder) 1 0 []
      (fun rid ruleId kind' fr toE' sub bod hne => by
        simp only [env0, okDispatch, failDispatch]
        rw [if_neg hne])
  · exact (dispatch_failure_isolation.2 { env0 with dispatch := failDispatch } 0 rule0 rec0
      NotificationKind.reminder 30 (safeEmails [rec0.ownerEmail]) noOwnerMsg (str "Reminder")
      (initState []) (str "boom") (by decide) (by decide) rfl).1

end LMS
